import Mathlib

/-!
Verification development for the zoom-bot-service media pipeline.

Shallow embedding of:
- `bot/bot_controller/streaming_uploader.py` (`StreamingUploader`)
- `bot/bot_controller/audio_output_manager.py` (`AudioOutputManager`)
- `bot/bot_controller/bot_controller.py` (media-request actions of `BotController`)
- `bot/bot_controller/gstreamer_pipeline.py` (timestamping of `GstreamerPipeline`)
- `bot/bot_controller/individual_audio_input_manager.py` (`IndividualAudioInputManager`)
- `bot/bot_adapter/bot_adapter.py` (video-source selection of `ZoomBotAdapter`)
- `bot/bot_adapter/video_input_manager.py` (`scale_i420`)

Bytes are modelled as `Nat`, byte strings as `List Nat`, wall-clock instants as `ℚ`
(seconds) or `Int` (nanoseconds, matching `time.time_ns()`), and Python dicts keyed
by speaker id as total functions `Nat → Option _`.  External collaborators (S3,
cv2, the Zoom SDK, the VAD classifier, the persistence layer) are modelled at
their interfaces, as parameters or explicit call traces.
-/

namespace ZoomBot

/-! ## StreamingUploader (`streaming_uploader.py`) -/

namespace StreamingUploader

/-- The mutable state of a `StreamingUploader`: the residual append buffer, the
FIFO of `(chunk, part_number)` pairs placed on `upload_queue` (in enqueue order),
and the next part number (initialised to 1 in `__init__`). -/
structure UploaderState where
  chunk_size : Nat
  buffer : List Nat
  queued : List (List Nat × Nat)
  part_number : Nat
deriving Repr, DecidableEq

/-- `__init__`: empty buffer, empty queue, `part_number = 1`. -/
def initState (chunk_size : Nat) : UploaderState :=
  { chunk_size := chunk_size, buffer := [], queued := [], part_number := 1 }

/-- The `while self.buffer.tell() >= self.chunk_size` loop of `upload_part`:
repeatedly slice a `chunk_size`-byte chunk off the front of the buffer and
enqueue it with the current part number, keeping the remainder.
Returns (newly enqueued pairs, residual buffer, next part number). -/
def drainChunks (cs : Nat) (buf : List Nat) (pn : Nat) :
    List (List Nat × Nat) × List Nat × Nat :=
  if h : 0 < cs ∧ cs ≤ buf.length then
    let out := drainChunks cs (buf.drop cs) (pn + 1)
    ((buf.take cs, pn) :: out.1, out.2.1, out.2.2)
  else ([], buf, pn)
termination_by buf.length
decreasing_by simp only [List.length_drop]; omega

/-- `StreamingUploader.upload_part(data)`: write `data` into the buffer, then
drain all complete chunks onto the upload queue. -/
def upload_part (st : UploaderState) (data : List Nat) : UploaderState :=
  let out := drainChunks st.chunk_size (st.buffer ++ data) st.part_number
  { st with buffer := out.2.1, queued := st.queued ++ out.1, part_number := out.2.2 }

/-- A fresh uploader after a sequence of `upload_part` calls. -/
def runUpload (cs : Nat) (datas : List (List Nat)) : UploaderState :=
  datas.foldl upload_part (initState cs)

/-- The S3 call performed by `complete_upload`: either a single `put_object` of
the buffer contents, or a `complete_multipart_upload` listing the given parts
in the given order. -/
inductive CompleteAction where
  | singlePut (data : List Nat)
  | multipart (partsListed : List (List Nat × Nat))
deriving Repr, DecidableEq

/-- `sorted(self.parts, key=lambda x: x['PartNumber'])` — a stable sort of the
acknowledged parts by part number. -/
def sortParts (parts : List (List Nat × Nat)) : List (List Nat × Nat) :=
  List.insertionSort (fun a b => a.2 ≤ b.2) parts

/-- `StreamingUploader.complete_upload()`.  The worker thread appends an entry
to `self.parts` for each queued pair it uploads; because the transport may
reorder completions, the acknowledged-parts list is an arbitrary permutation of
the enqueued pairs.  `ackedAtCheck` is `self.parts` when the
`len(self.parts) == 0` test runs (all parts enqueued by `upload_part`,
acknowledged in some order), and `finalAcked` is `self.parts` after the final
remainder is enqueued and `upload_queue.join()` returns. -/
def complete_upload (st : UploaderState)
    (ackedAtCheck finalAcked : List (List Nat × Nat)) : CompleteAction :=
  if ackedAtCheck.length = 0 then .singlePut st.buffer
  else .multipart (sortParts finalAcked)

/-- The uploader's state invariant after ingesting `consumed` bytes: the queued
chunks followed by the residual buffer reconstitute the input, every queued
chunk is exactly one chunk long, part numbers run 1, 2, … consecutively, and
the residue is shorter than one chunk. -/
def GoodState (st : UploaderState) (consumed : List Nat) : Prop :=
  (st.queued.map Prod.fst).flatten ++ st.buffer = consumed
  ∧ (∀ p ∈ st.queued, p.1.length = st.chunk_size)
  ∧ st.queued.map Prod.snd = List.range' 1 st.queued.length
  ∧ st.part_number = 1 + st.queued.length
  ∧ st.buffer.length < st.chunk_size

instance instIsTotalPartLe :
    IsTotal (List Nat × Nat) (fun a b => a.2 ≤ b.2) :=
  ⟨fun a b => Nat.le_total a.2 b.2⟩

instance instIsTransPartLe :
    IsTrans (List Nat × Nat) (fun a b => a.2 ≤ b.2) :=
  ⟨fun _ _ _ => Nat.le_trans⟩

end StreamingUploader

/-! ## Media requests (`bots/models.py` records, `bot_controller.py` actions) -/

/-- `BotMediaRequestMediaTypes`. -/
inductive BotMediaRequestMediaTypes where
  | audio
  | image
deriving Repr, DecidableEq

/-- `BotMediaRequestStates`. -/
inductive BotMediaRequestStates where
  | ENQUEUED
  | PLAYING
  | FINISHED
  | FAILED
  | DROPPED
deriving Repr, DecidableEq

/-- A `MediaRequest` record (id, media type, state, creation time, and — for
audio — the playback duration in milliseconds). -/
structure MediaRequest where
  id : Nat
  media_type : BotMediaRequestMediaTypes
  state : BotMediaRequestStates
  created_at : Nat
  duration_ms : ℚ
deriving Repr, DecidableEq

/-- Modelled from the spec: the persistence layer (`BotMediaRequestManager` in
`bots/models.py`, which is not under `src/`) persists MediaRequest state
transitions (`set_media_request_playing` / `finished` / `failed_to_play` /
`dropped`); per spec §3 each such call sets the `state` field of the record
with the given id. -/
def set_media_request_state (db : List MediaRequest) (rid : Nat)
    (s : BotMediaRequestStates) : List MediaRequest :=
  db.map fun r => if r.id = rid then { r with state := s } else r

/-- `media_requests.filter(state=ENQUEUED, media_type=mt).order_by('created_at')`:
the enqueued requests of the given type, stably sorted by creation time. -/
def enqueuedOfType (db : List MediaRequest) (mt : BotMediaRequestMediaTypes) :
    List MediaRequest :=
  List.insertionSort (fun a b => a.created_at ≤ b.created_at)
    (db.filter fun r => decide (r.state = .ENQUEUED ∧ r.media_type = mt))

/-- `.first()` on the `order_by('created_at')` query — the oldest enqueued
request of the given type. -/
def oldestEnqueued (db : List MediaRequest) (mt : BotMediaRequestMediaTypes) :
    Option MediaRequest :=
  (enqueuedOfType db mt).head?

/-- `media_requests.filter(state=PLAYING, media_type=mt).first()`. -/
def firstPlaying (db : List MediaRequest) (mt : BotMediaRequestMediaTypes) :
    Option MediaRequest :=
  (db.filter fun r => decide (r.state = .PLAYING ∧ r.media_type = mt)).head?

/-- Look up the state of the (first) record with the given id. -/
def stateOf : List MediaRequest → Nat → Option BotMediaRequestStates
  | [], _ => none
  | r :: t, rid => if r.id = rid then some r.state else stateOf t rid

/-! ## AudioOutputManager (`audio_output_manager.py`) -/

/-- The playback scheduler's state: at most one in-flight audio request and its
start instant (`time.time()`, in seconds). -/
structure AudioOutputManager where
  currently_playing_audio_media_request : Option MediaRequest
  currently_playing_audio_media_request_started_at : Option ℚ
deriving Repr, DecidableEq

namespace AudioOutputManager

/-- `__init__`. -/
def initState : AudioOutputManager := ⟨none, none⟩

/-- `start_playing_audio_media_request`: record the request and `time.time()`. -/
def start_playing_audio_media_request (_st : AudioOutputManager)
    (req : MediaRequest) (now : ℚ) : AudioOutputManager :=
  ⟨some req, some now⟩

/-- `currently_playing_audio_media_request_is_finished`: false when nothing is
in flight, else true iff elapsed milliseconds strictly exceed `duration_ms`. -/
def currently_playing_audio_media_request_is_finished
    (st : AudioOutputManager) (now : ℚ) : Bool :=
  match st.currently_playing_audio_media_request,
        st.currently_playing_audio_media_request_started_at with
  | some req, some t => decide ((now - t) * 1000 > req.duration_ms)
  | _, _ => false

/-- `clear_currently_playing_audio_media_request`. -/
def clear_currently_playing_audio_media_request
    (_st : AudioOutputManager) : AudioOutputManager :=
  ⟨none, none⟩

/-- `monitor_currently_playing_audio_media_request`: when the in-flight request
has finished, clear the state and hand the finished request to the callback
(returned as the second component); otherwise do nothing. -/
def monitor_currently_playing_audio_media_request
    (st : AudioOutputManager) (now : ℚ) : AudioOutputManager × Option MediaRequest :=
  if currently_playing_audio_media_request_is_finished st now then
    (clear_currently_playing_audio_media_request st,
     st.currently_playing_audio_media_request)
  else (st, none)

end AudioOutputManager

/-! ## BotController media-request actions (`bot_controller.py`) -/

namespace BotController

/-- Result of an audio media-request action: the updated records and the
updated playback-scheduler state. -/
structure AudioActionResult where
  db : List MediaRequest
  aom : AudioOutputManager
deriving Repr, DecidableEq

/-- `take_action_based_on_audio_media_requests_in_db`.  `send_ok` models whether
`self.adapter.send_raw_audio(mp3_to_pcm(...))` succeeds — it raises when the
outbound channel has not signalled readiness (`on_mic_start_send_callback`);
the `except` branch then marks the request failed.  On success the playback
scheduler is started for the request at wall-clock `now`. -/
def take_action_based_on_audio_media_requests_in_db (db : List MediaRequest)
    (aom : AudioOutputManager) (send_ok : Bool) (now : ℚ) : AudioActionResult :=
  match oldestEnqueued db .audio with
  | none => ⟨db, aom⟩
  | some oldest =>
    if (firstPlaying db .audio).isSome then ⟨db, aom⟩
    else
      let db1 := set_media_request_state db oldest.id .PLAYING
      if send_ok then
        ⟨db1, aom.start_playing_audio_media_request oldest now⟩
      else
        ⟨set_media_request_state db1 oldest.id .FAILED, aom⟩

/-- `currently_playing_audio_media_request_finished` (the Playback Scheduler's
finished-callback): persist FINISHED for the completed request, then run the
audio action.  (It does not touch image media requests.) -/
def currently_playing_audio_media_request_finished (db : List MediaRequest)
    (aom : AudioOutputManager) (req_id : Nat) (send_ok : Bool) (now : ℚ) :
    AudioActionResult :=
  take_action_based_on_audio_media_requests_in_db
    (set_media_request_state db req_id .FINISHED) aom send_ok now

/-- `take_action_based_on_image_media_requests_in_db`.  `send_ok` models whether
`self.adapter.send_raw_image(png_to_yuv420_frame(...))` succeeds. -/
def take_action_based_on_image_media_requests_in_db (db : List MediaRequest)
    (send_ok : Bool) : List MediaRequest :=
  let enq := enqueuedOfType db .image
  match enq.getLast? with
  | none => db
  | some newest =>
    let db1 := set_media_request_state db newest.id .PLAYING
    let db2 := if send_ok then set_media_request_state db1 newest.id .FINISHED
               else set_media_request_state db1 newest.id .FAILED
    (enq.filter fun r => decide (r.id ≠ newest.id)).foldl
      (fun d r => set_media_request_state d r.id .DROPPED) db2

end BotController

/-! ## GstreamerPipeline timestamping (`gstreamer_pipeline.py`) -/

namespace GstreamerPipeline

/-- The pipeline fields that the two push callbacks consult: the
recording-active flags, whether the two appsrc elements exist, and
`start_time_ns` (the epoch, set on the first unit pushed). -/
structure PipelineState where
  recording_active : Bool
  audio_recording_active : Bool
  has_video_appsrc : Bool
  has_audio_appsrc : Bool
  start_time_ns : Option Int
deriving Repr, DecidableEq

/-- State right after `setup()`: both stages active and attached,
`start_time_ns = None`. -/
def setupState : PipelineState :=
  { recording_active := true, audio_recording_active := true,
    has_video_appsrc := true, has_audio_appsrc := true, start_time_ns := none }

/-- `on_mixed_audio_raw_data_received_callback`: drop the chunk unless both
stages are active and attached; otherwise establish the epoch if unset and
stamp `buffer.pts = current_time_ns - start_time_ns`.  Returns the assigned
presentation timestamp, if any. -/
def on_mixed_audio_raw_data_received_callback (st : PipelineState)
    (current_time_ns : Int) : PipelineState × Option Int :=
  if !st.audio_recording_active || !st.has_audio_appsrc ||
     !st.recording_active || !st.has_video_appsrc then
    (st, none)
  else
    let epoch := st.start_time_ns.getD current_time_ns
    ({ st with start_time_ns := some epoch }, some (current_time_ns - epoch))

/-- `on_new_video_frame`: establish the epoch if unset and stamp
`buffer_pts = current_time_ns - start_time_ns`. -/
def on_new_video_frame (st : PipelineState) (current_time_ns : Int) :
    PipelineState × Option Int :=
  let epoch := st.start_time_ns.getD current_time_ns
  ({ st with start_time_ns := some epoch }, some (current_time_ns - epoch))

/-- A unit arriving at the pipeline: a mixed-audio chunk or a video frame,
tagged with its wall-clock capture time (`time.time_ns()`). -/
inductive MediaUnit where
  | audioChunk (t : Int)
  | videoFrame (t : Int)
deriving Repr, DecidableEq

/-- Capture time of a unit. -/
def MediaUnit.time : MediaUnit → Int
  | .audioChunk t => t
  | .videoFrame t => t

/-- Push one unit through the corresponding callback. -/
def pushUnit (st : PipelineState) : MediaUnit → PipelineState × Option Int
  | .audioChunk t => on_mixed_audio_raw_data_received_callback st t
  | .videoFrame t => on_new_video_frame st t

/-- Push a sequence of interleaved units, collecting the presentation
timestamps assigned to those that were accepted. -/
def runPipeline (st : PipelineState) (units : List MediaUnit) :
    PipelineState × List (MediaUnit × Int) :=
  units.foldl
    (fun acc u =>
      let r := pushUnit acc.1 u
      (r.1, acc.2 ++ (r.2.map (fun pts => (u, pts))).toList))
    (st, [])

end GstreamerPipeline

/-! ## IndividualAudioInputManager (`individual_audio_input_manager.py`) -/

namespace IndividualAudioInputManager

/-- `self.UTTERANCE_SIZE_LIMIT = 19200000`. -/
def UTTERANCE_SIZE_LIMIT : Nat := 19200000

/-- `self.SILENCE_DURATION_LIMIT = 3` (seconds). -/
def SILENCE_DURATION_LIMIT : ℚ := 3

/-- The per-speaker dictionaries `self.utterances`,
`self.first_nonsilent_audio_time` and `self.last_nonsilent_audio_time`,
modelled as total functions from speaker id (dict keys are unique by
construction).  Times are in seconds (`ℚ`). -/
structure SegmenterState where
  utterances : Nat → Option (List Nat)
  first_nonsilent_audio_time : Nat → Option ℚ
  last_nonsilent_audio_time : Nat → Option ℚ

/-- The empty manager (`__init__`). -/
def initState : SegmenterState := ⟨fun _ => none, fun _ => none, fun _ => none⟩

/-- Pointwise dictionary update. -/
def upd {α : Type} (f : Nat → Option α) (k : Nat) (v : Option α) :
    Nat → Option α :=
  fun x => if x = k then v else f x

/-- One `save_utterance_callback` invocation: the participant info, the flushed
audio bytes, the recorded start timestamp and the flush reason. -/
structure FlushEvent where
  participant : Nat
  audio_data : List Nat
  timestamp : ℚ
  flush_reason : String
deriving Repr, DecidableEq

/-- The silence classification applied to a queued chunk payload
(`self.silence_detected(chunk_bytes) if chunk_bytes else True`): a missing or
empty payload is silent by Python truthiness, otherwise the `silence_detected`
classifier `sil` decides. -/
def chunkSilent (sil : List Nat → Bool) : Option (List Nat) → Bool
  | none => true
  | some b => if b.isEmpty then true else sil b

/-- The state of a speaker `s` right after a nonsilent chunk `b` at time `t`
opened a fresh buffer. -/
def openState (st : SegmenterState) (s : Nat) (b : List Nat) (t : ℚ) :
    SegmenterState :=
  { utterances := upd st.utterances s (some b),
    first_nonsilent_audio_time := upd st.first_nonsilent_audio_time s (some t),
    last_nonsilent_audio_time := upd st.last_nonsilent_audio_time s (some t) }

/-- The state of a speaker `s` right after a flush: empty buffer, timing state
deleted. -/
def flushedState (st : SegmenterState) (s : Nat) : SegmenterState :=
  { utterances := upd st.utterances s (some []),
    first_nonsilent_audio_time := upd st.first_nonsilent_audio_time s none,
    last_nonsilent_audio_time := upd st.last_nonsilent_audio_time s none }

/-- The buffer contents after the `if chunk_bytes: ... extend(chunk_bytes)`
step: truthy (nonempty) payload bytes are appended to the speaker's buffer,
`None` or empty payloads leave it unchanged. -/
def appendedOf (st : SegmenterState) (speaker_id : Nat) :
    Option (List Nat) → List Nat
  | none => (st.utterances speaker_id).getD []
  | some b =>
    if b.isEmpty then (st.utterances speaker_id).getD []
    else (st.utterances speaker_id).getD [] ++ b

/-- The tail of `process_chunk` after the buffer-initialisation guard:
append truthy bytes, evaluate the flush triggers (buffer size against
`UTTERANCE_SIZE_LIMIT`, elapsed silence against `SILENCE_DURATION_LIMIT`,
with the silence reason overriding the size reason), update the
last-nonsilent time on nonsilent audio, and flush if needed. -/
def process_chunk_core (getP : Nat → Option Nat)
    (st : SegmenterState) (speaker_id : Nat) (chunk_time : ℚ)
    (chunk_bytes : Option (List Nat)) (audio_is_silent : Bool) :
    SegmenterState × List FlushEvent :=
  let appended : List Nat := appendedOf st speaker_id chunk_bytes
  let st2 : SegmenterState :=
    { st with utterances := upd st.utterances speaker_id (some appended) }
  let sizeFlush : Bool := decide (appended.length ≥ UTTERANCE_SIZE_LIMIT)
  let silence_duration : ℚ :=
    chunk_time - (st2.last_nonsilent_audio_time speaker_id).getD 0
  let silenceFlush : Bool :=
    audio_is_silent && decide (silence_duration ≥ SILENCE_DURATION_LIMIT)
  let should_flush : Bool := sizeFlush || silenceFlush
  let reason : String := if silenceFlush then "silence_limit" else "buffer_full"
  let st3 : SegmenterState :=
    if audio_is_silent then st2
    else { st2 with
            last_nonsilent_audio_time :=
              upd st2.last_nonsilent_audio_time speaker_id (some chunk_time) }
  if should_flush && !appended.isEmpty then
    let events : List FlushEvent :=
      match getP speaker_id with
      | some participant =>
        [{ participant := participant, audio_data := appended,
           timestamp := (st3.first_nonsilent_audio_time speaker_id).getD 0,
           flush_reason := reason }]
      | none => []
    ({ utterances := upd st3.utterances speaker_id (some []),
       first_nonsilent_audio_time :=
         upd st3.first_nonsilent_audio_time speaker_id none,
       last_nonsilent_audio_time :=
         upd st3.last_nonsilent_audio_time speaker_id none },
     events)
  else (st3, [])

/-- `IndividualAudioInputManager.process_chunk(speaker_id, chunk_time,
chunk_bytes)`.  `sil` is the `silence_detected` classifier (RMS + VAD) applied
to nonempty chunk bytes; `getP` is `get_participant_callback`.  A `none` chunk
is the synthetic "time only" marker; Python truthiness makes both `None` and
empty bytes count as silent and skip the buffer append.  Returns the new state
and the flush events emitted (at most one). -/
def process_chunk (sil : List Nat → Bool) (getP : Nat → Option Nat)
    (st : SegmenterState) (speaker_id : Nat) (chunk_time : ℚ)
    (chunk_bytes : Option (List Nat)) : SegmenterState × List FlushEvent :=
  let audio_is_silent : Bool := chunkSilent sil chunk_bytes
  if ((st.utterances speaker_id).getD []).isEmpty then
    if audio_is_silent then (st, [])
    else
      -- open a new buffer and record first/last nonsilent times
      let st1 : SegmenterState :=
        { utterances := upd st.utterances speaker_id (some []),
          first_nonsilent_audio_time :=
            upd st.first_nonsilent_audio_time speaker_id (some chunk_time),
          last_nonsilent_audio_time :=
            upd st.last_nonsilent_audio_time speaker_id (some chunk_time) }
      process_chunk_core getP st1 speaker_id chunk_time chunk_bytes
        audio_is_silent
  else
    process_chunk_core getP st speaker_id chunk_time chunk_bytes
      audio_is_silent

/-- A queued chunk: speaker id, capture time, and payload (`none` for the
synthetic time-only marker). -/
abbrev QueuedChunk := Nat × ℚ × Option (List Nat)

/-- Process a list of chunks in order, accumulating flush events. -/
def process_chunk_list (sil : List Nat → Bool) (getP : Nat → Option Nat)
    (st : SegmenterState) (chunks : List QueuedChunk) :
    SegmenterState × List FlushEvent :=
  chunks.foldl
    (fun acc c =>
      let r := process_chunk sil getP acc.1 c.1 c.2.1 c.2.2
      (r.1, acc.2 ++ r.2))
    (st, [])

/-- `process_chunks`: drain the queued real chunks, then issue a synthetic
no-audio tick at the current time for every speaker with timing state
(`speakers` enumerates `self.first_nonsilent_audio_time.keys()`). -/
def process_chunks (sil : List Nat → Bool) (getP : Nat → Option Nat)
    (st : SegmenterState) (queued : List QueuedChunk) (now : ℚ)
    (speakers : List Nat) : SegmenterState × List FlushEvent :=
  process_chunk_list sil getP st
    (queued ++ speakers.map fun s => (s, now, none))

/-- `flush_utterances`: a synthetic silent tick at
`now + SILENCE_DURATION_LIMIT + 1` for every speaker with timing state. -/
def flush_utterances (sil : List Nat → Bool) (getP : Nat → Option Nat)
    (st : SegmenterState) (now : ℚ) (speakers : List Nat) :
    SegmenterState × List FlushEvent :=
  process_chunk_list sil getP st
    (speakers.map fun s => (s, now + SILENCE_DURATION_LIMIT + 1, none))

/-- The segmenter's state invariant: a speaker has first/last-nonsilent timing
entries exactly when it has a nonempty accumulated buffer. -/
def TimingInv (st : SegmenterState) : Prop :=
  ∀ s, ((st.first_nonsilent_audio_time s).isSome ↔
          ((st.utterances s).getD []).isEmpty = false)
    ∧ ((st.last_nonsilent_audio_time s).isSome ↔
          ((st.utterances s).getD []).isEmpty = false)

end IndividualAudioInputManager

/-! ## ZoomBotAdapter video-source selection (`bot_adapter.py`) -/

namespace ZoomBotAdapter

/-- `VideoInputManager.Mode` together with the id it was set with. -/
inductive SelectionMode where
  | activeSpeaker (pid : Option Nat)
  | activeSharer (pid : Option Nat)
deriving Repr, DecidableEq

/-- The adapter fields consulted by the selection logic.  `video_mode` is the
mode most recently passed to `VideoInputManager.set_mode` (if any). -/
structure AdapterState where
  wants_any_video_frames : Bool
  recording_permission_granted : Bool
  active_sharer_id : Option Nat
  active_speaker_id : Option Nat
  my_participant_id : Nat
  participants : List Nat
  video_mode : Option SelectionMode
deriving Repr, DecidableEq

/-- Python truthiness of an optional user id (`if self.active_sharer_id:`):
`None` and `0` are falsy. -/
def truthy : Option Nat → Bool
  | none => false
  | some n => decide (n ≠ 0)

/-- `ZoomBotAdapter.set_video_input_manager_based_on_state`. -/
def set_video_input_manager_based_on_state (st : AdapterState) : AdapterState :=
  if !st.wants_any_video_frames then st
  else if !st.recording_permission_granted then st
  else if truthy st.active_sharer_id then
    { st with video_mode := some (.activeSharer st.active_sharer_id) }
  else if truthy st.active_speaker_id then
    { st with video_mode := some (.activeSpeaker st.active_speaker_id) }
  else
    let default_participant_id :=
      (st.participants.find? fun p => decide (p ≠ st.my_participant_id)).getD
        st.my_participant_id
    { st with video_mode := some (.activeSpeaker (some default_participant_id)) }

/-- `ZoomBotAdapter.on_user_active_audio_change_callback(user_ids)`. -/
def on_user_active_audio_change_callback (st : AdapterState)
    (user_ids : List Nat) : AdapterState :=
  match user_ids with
  | [] => st
  | u :: _ =>
    if u = st.my_participant_id then st
    else if st.active_speaker_id = some u then st
    else
      set_video_input_manager_based_on_state { st with active_speaker_id := some u }

/-- `ZoomBotAdapter.on_sharing_status_callback(sharing_status, user_id)`:
`sharing` is true for `Sharing_Other_Share_Begin` / `Sharing_View_Other_Sharing`. -/
def on_sharing_status_callback (st : AdapterState) (sharing : Bool)
    (user_id : Nat) : AdapterState :=
  let new_active_sharer_id := if sharing then some user_id else none
  if new_active_sharer_id = st.active_sharer_id then st
  else
    set_video_input_manager_based_on_state
      { st with active_sharer_id := new_active_sharer_id }

end ZoomBotAdapter

/-! ## Frame scaler (`video_input_manager.py`, `scale_i420`) -/

namespace VideoInputManager

/-- A planar 4:2:0 frame: dimensions plus pixel-lookup functions for the three
planes (row, column ↦ sample value), as read off the raw Y/U/V buffers. -/
structure I420Frame where
  width : Nat
  height : Nat
  yBuf : Nat → Nat → Nat
  uBuf : Nat → Nat → Nat
  vBuf : Nat → Nat → Nat

/-- A resizing backend standing for `cv2.resize(..., INTER_LINEAR)`: source
plane and dimensions, target dimensions ↦ target plane.  `scale_i420` only
relies on it producing a plane of the requested target shape, which the model
makes intrinsic by reading exactly `th × tw` samples from the result. -/
abbrev Resizer :=
  (Nat → Nat → Nat) → Nat → Nat → Nat → Nat → (Nat → Nat → Nat)

/-- Row-major flattening of a `h × w` plane into bytes. -/
def flattenPlane (f : Nat → Nat → Nat) (w h : Nat) : List Nat :=
  ((List.range h).map fun r => (List.range w).map fun c => f r c).flatten

/-- `orig_width / orig_height` as an exact rational (the Python code computes
this with float division; tolerance comparisons below use the same 1e-6). -/
def aspect (w h : Nat) : ℚ := (w : ℚ) / (h : ℚ)

/-- The `(scaled_width, scaled_height)` computed in the letterbox branch:
fit-width when the input is relatively wider, fit-height otherwise, with
`int(round(...))` for the dependent dimension. -/
def scaledDims (iw ih nw nh : Nat) : Nat × Nat :=
  if aspect iw ih > aspect nw nh then
    (nw, (round ((nw : ℚ) / aspect iw ih)).toNat)
  else
    ((round ((nh : ℚ) * aspect iw ih)).toNat, nh)

/-- The composited luma plane of the letterbox branch: the scaled plane `sy`
(of dimensions `sh × sw`) inserted at offsets `(offy, offx)` into a black
(`0`) canvas — `final_y[offset_y:offset_y+scaled_height,
offset_x:offset_x+scaled_width] = scaled_y` over `np.zeros`. -/
def letterY (sy : Nat → Nat → Nat) (offy offx sh sw : Nat) :
    Nat → Nat → Nat := fun r c =>
  if offy ≤ r ∧ r < offy + sh ∧ offx ≤ c ∧ c < offx + sw
  then sy (r - offy) (c - offx) else 0

/-- The composited chroma plane of the letterbox branch: the scaled plane
inserted at the halved offsets into a mid-gray (`128`) canvas — `np.full(...,
128)`. -/
def letterUV (su : Nat → Nat → Nat) (offy offx sh sw : Nat) :
    Nat → Nat → Nat := fun r c =>
  if offy ≤ r ∧ r < offy + sh ∧ offx ≤ c ∧ c < offx + sw
  then su (r - offy) (c - offx) else 128

/-- `scale_i420(frame, (new_width, new_height))`. -/
def scale_i420 (resize : Resizer) (frame : I420Frame) (nw nh : Nat) :
    List Nat :=
  let iw := frame.width
  let ih := frame.height
  if |aspect iw ih - aspect nw nh| < 1 / 1000000 then
    -- aspect ratios match: direct stretch of all three planes
    let sy := resize frame.yBuf iw ih nw nh
    let su := resize frame.uBuf (iw / 2) (ih / 2) (nw / 2) (nh / 2)
    let sv := resize frame.vBuf (iw / 2) (ih / 2) (nw / 2) (nh / 2)
    flattenPlane sy nw nh ++ flattenPlane su (nw / 2) (nh / 2) ++
      flattenPlane sv (nw / 2) (nh / 2)
  else
    -- letterbox / pillarbox onto a black canvas
    let sw := (scaledDims iw ih nw nh).1
    let sh := (scaledDims iw ih nw nh).2
    let sy := resize frame.yBuf iw ih sw sh
    let su := resize frame.uBuf (iw / 2) (ih / 2) (sw / 2) (sh / 2)
    let sv := resize frame.vBuf (iw / 2) (ih / 2) (sw / 2) (sh / 2)
    let offset_y := (nh - sh) / 2
    let offset_x := (nw - sw) / 2
    let offset_y_uv := offset_y / 2
    let offset_x_uv := offset_x / 2
    flattenPlane (letterY sy offset_y offset_x sh sw) nw nh ++
      flattenPlane (letterUV su offset_y_uv offset_x_uv (sh / 2) (sw / 2))
        (nw / 2) (nh / 2) ++
      flattenPlane (letterUV sv offset_y_uv offset_x_uv (sh / 2) (sw / 2))
        (nw / 2) (nh / 2)

end VideoInputManager

/-! # Theorems -/

/-! ## StreamingUploader lemmas, C1 and C10 -/

namespace StreamingUploader

theorem range'_append_one (m : Nat) : ∀ (s n : Nat),
    List.range' s m ++ List.range' (s + m) n = List.range' s (m + n) := by
  induction m with
  | zero => intro s n; simp
  | succ m ih =>
    intro s n
    have h2 : m + 1 + n = (m + n) + 1 := by omega
    rw [h2, List.range'_succ s (m + n) 1, List.range'_succ s m 1]
    have h1 : s + (m + 1) = (s + 1) + m := by omega
    rw [List.cons_append, h1, ih (s + 1) n]

theorem drainChunks_spec (cs : Nat) (buf : List Nat) (pn : Nat) :
    ((drainChunks cs buf pn).1.map Prod.fst).flatten ++ (drainChunks cs buf pn).2.1 = buf
    ∧ (∀ p ∈ (drainChunks cs buf pn).1, p.1.length = cs)
    ∧ (drainChunks cs buf pn).1.map Prod.snd
        = List.range' pn (drainChunks cs buf pn).1.length
    ∧ (drainChunks cs buf pn).2.2 = pn + (drainChunks cs buf pn).1.length
    ∧ (0 < cs → (drainChunks cs buf pn).2.1.length < cs) := by
  induction buf, pn using drainChunks.induct cs with
  | case1 buf pn h ih =>
    obtain ⟨ih1, ih2, ih3, ih4, ih5⟩ := ih
    rw [drainChunks]
    simp only [dif_pos h]
    refine ⟨?_, ?_, ?_, ?_, fun hcs => ih5 hcs⟩
    · simp only [List.map_cons, List.flatten_cons, List.append_assoc]
      rw [ih1]
      exact List.take_append_drop cs buf
    · intro p hp
      rcases List.mem_cons.mp hp with h1 | h2
      · subst h1
        simp [List.length_take]
        omega
      · exact ih2 p h2
    · simp only [List.map_cons, List.length_cons]
      rw [ih3, List.range'_succ pn _ 1]
    · simp only [List.length_cons]
      omega
  | case2 buf pn h =>
    rw [drainChunks]
    simp only [dif_neg h]
    refine ⟨by simp, by simp, by simp, by simp, fun hcs => ?_⟩
    simp only [not_and, not_le] at h
    exact h hcs

theorem upload_part_GoodState {st : UploaderState} {c : List Nat}
    (hcs : 0 < st.chunk_size) (hg : GoodState st c) (d : List Nat) :
    GoodState (upload_part st d) (c ++ d)
    ∧ (upload_part st d).chunk_size = st.chunk_size := by
  obtain ⟨h1, h2, h3, h4, h5⟩ := hg
  obtain ⟨d1, d2, d3, d4, d5⟩ :=
    drainChunks_spec st.chunk_size (st.buffer ++ d) st.part_number
  have hbuf : (upload_part st d).buffer
      = (drainChunks st.chunk_size (st.buffer ++ d) st.part_number).2.1 := rfl
  have hque : (upload_part st d).queued
      = st.queued ++ (drainChunks st.chunk_size (st.buffer ++ d) st.part_number).1 := rfl
  have hpn : (upload_part st d).part_number
      = (drainChunks st.chunk_size (st.buffer ++ d) st.part_number).2.2 := rfl
  have hcs2 : (upload_part st d).chunk_size = st.chunk_size := rfl
  refine ⟨⟨?_, ?_, ?_, ?_, ?_⟩, rfl⟩
  · rw [hque, hbuf, List.map_append, List.flatten_append, List.append_assoc, d1,
      ← List.append_assoc, h1]
  · intro p hp
    rw [hcs2]
    rw [hque] at hp
    rcases List.mem_append.mp hp with hq | hn
    · exact h2 p hq
    · exact d2 p hn
  · rw [hque, List.map_append, h3, d3, List.length_append, h4]
    exact range'_append_one st.queued.length 1 _
  · rw [hpn, hque, d4, h4, List.length_append]
    omega
  · rw [hbuf, hcs2]
    exact d5 hcs

theorem runUpload_GoodState_aux (cs : Nat) (hcs : 0 < cs) (l : List (List Nat)) :
    ∀ (st : UploaderState) (c : List Nat), st.chunk_size = cs → GoodState st c →
      GoodState (l.foldl upload_part st) (c ++ l.flatten)
      ∧ (l.foldl upload_part st).chunk_size = cs := by
  induction l with
  | nil => intro st c hsz hg; simpa using ⟨hg, hsz⟩
  | cons d t ih =>
    intro st c hsz hg
    have hd := @upload_part_GoodState st c (hsz ▸ hcs) hg d
    have := ih (upload_part st d) (c ++ d) (hd.2.trans hsz) hd.1
    simpa [List.append_assoc] using this

theorem runUpload_GoodState (cs : Nat) (hcs : 0 < cs) (datas : List (List Nat)) :
    GoodState (runUpload cs datas) datas.flatten
    ∧ (runUpload cs datas).chunk_size = cs := by
  have hinit : GoodState (initState cs) [] := by
    refine ⟨by simp [initState], by simp [initState], by simp [initState],
      by simp [initState], ?_⟩
    simpa [initState] using hcs
  simpa using runUpload_GoodState_aux cs hcs datas (initState cs) [] rfl hinit

theorem flatten_length_of_chunks (cs : Nat) (q : List (List Nat × Nat))
    (hq : ∀ p ∈ q, p.1.length = cs) :
    ((q.map Prod.fst).flatten).length = q.length * cs := by
  induction q with
  | nil => simp
  | cons a t ih =>
    simp only [List.map_cons, List.flatten_cons, List.length_append, List.length_cons]
    rw [hq a (by simp), ih (fun p hp => hq p (by simp [hp]))]
    ring

theorem euclid_unique {cs a b N r : Nat} (hcs : 0 < cs) (hb : b < cs) (hr : r < cs)
    (h : a * cs + b = N * cs + r) : a = N ∧ b = r := by
  have ha : (cs * a + b) / cs = a + b / cs := Nat.mul_add_div hcs a b
  have hN : (cs * N + r) / cs = N + r / cs := Nat.mul_add_div hcs N r
  rw [Nat.div_eq_of_lt hb] at ha
  rw [Nat.div_eq_of_lt hr] at hN
  have hdiv : a = N := by
    have : cs * a + b = cs * N + r := by
      rw [Nat.mul_comm cs a, Nat.mul_comm cs N]; exact h
    have := congrArg (· / cs) this
    simpa [ha, hN] using this
  subst hdiv
  constructor
  · rfl
  · omega

/-- C10.  Chunked Uploader byte preservation: after any sequence of
`upload_part(data)` calls, the concatenation of the queued chunks (in enqueue
order) followed by the residual buffer equals the concatenation of all `data`
arguments in call order; every enqueued chunk has length exactly `chunk_size`;
and part numbers are assigned consecutively from 1 with no gaps or repeats. -/
theorem uploader_byte_preservation (cs : Nat) (datas : List (List Nat))
    (hcs : 0 < cs) :
    (((runUpload cs datas).queued.map Prod.fst).flatten
        ++ (runUpload cs datas).buffer = datas.flatten)
    ∧ (∀ p ∈ (runUpload cs datas).queued, p.1.length = cs)
    ∧ (runUpload cs datas).queued.map Prod.snd
        = List.range' 1 (runUpload cs datas).queued.length := by
  obtain ⟨⟨h1, h2, h3, _, _⟩, hsz⟩ := runUpload_GoodState cs hcs datas
  exact ⟨h1, fun p hp => (h2 p hp).trans hsz, h3⟩

/-- Witness for C10 at chunk size 3 with inputs `[1,2]` then `[3,4,5,6]`. -/
theorem uploader_byte_preservation_witness :
    0 < 3
    ∧ ((((runUpload 3 [[1,2],[3,4,5,6]]).queued.map Prod.fst).flatten
          ++ (runUpload 3 [[1,2],[3,4,5,6]]).buffer = [[1,2],[3,4,5,6]].flatten)
        ∧ (∀ p ∈ (runUpload 3 [[1,2],[3,4,5,6]]).queued, p.1.length = 3)
        ∧ (runUpload 3 [[1,2],[3,4,5,6]]).queued.map Prod.snd
            = List.range' 1 (runUpload 3 [[1,2],[3,4,5,6]]).queued.length) :=
  ⟨by decide, uploader_byte_preservation 3 [[1,2],[3,4,5,6]] (by decide)⟩

/-- C1.  Chunked Uploader completion: if fewer than `chunk_size` bytes were
ever passed to `upload_part`, nothing was enqueued for multipart upload (zero
`upload_part` S3 calls) and `complete_upload` performs exactly one single
`put_object` of all the bytes; if the total spans `N ≥ 1` full chunks plus a
nonempty remainder, `complete_upload` finalizes the multipart upload listing
exactly `N+1` parts numbered `1..N+1` in ascending part-number order,
regardless of the order in which individual part uploads completed. -/
theorem uploader_complete_upload_calls (cs : Nat) (datas : List (List Nat))
    (hcs : 0 < cs) :
    (datas.flatten.length < cs →
      (runUpload cs datas).queued = []
      ∧ ∀ acked final, List.Perm acked (runUpload cs datas).queued →
          complete_upload (runUpload cs datas) acked final
            = .singlePut datas.flatten)
    ∧ (∀ N r, datas.flatten.length = N * cs + r → 0 < N → 0 < r → r < cs →
      ∀ acked final,
        List.Perm acked (runUpload cs datas).queued →
        List.Perm final ((runUpload cs datas).queued
          ++ [((runUpload cs datas).buffer, (runUpload cs datas).part_number)]) →
        ∃ listed, complete_upload (runUpload cs datas) acked final = .multipart listed
          ∧ listed.map Prod.snd = List.range' 1 (N + 1)
          ∧ listed.length = N + 1) := by
  obtain ⟨⟨h1, h2, h3, h4, h5⟩, hsz⟩ := runUpload_GoodState cs hcs datas
  set st := runUpload cs datas with hst
  have hqlen : ((st.queued.map Prod.fst).flatten).length = st.queued.length * cs :=
    flatten_length_of_chunks cs st.queued (fun p hp => (h2 p hp).trans hsz)
  have htot : st.queued.length * cs + st.buffer.length = datas.flatten.length := by
    have := congrArg List.length h1
    simpa [List.length_append, hqlen] using this
  constructor
  · intro hsmall
    have hq : st.queued = [] := by
      by_contra hne
      have : 1 ≤ st.queued.length := Nat.one_le_iff_ne_zero.mpr
        (fun h0 => hne (List.length_eq_zero.mp h0))
      have : cs ≤ st.queued.length * cs := by
        calc cs = 1 * cs := (Nat.one_mul cs).symm
        _ ≤ st.queued.length * cs := Nat.mul_le_mul_right cs this
      omega
    refine ⟨hq, fun acked final hperm => ?_⟩
    have hacked : acked = [] := List.Perm.eq_nil (hq ▸ hperm)
    have hbuf : st.buffer = datas.flatten := by
      have := h1
      rw [hq] at this
      simpa using this
    simp [complete_upload, hacked, hbuf]
  · intro N r htotal hN hr hrcs acked final hperm hfperm
    have hdiv : st.queued.length = N ∧ st.buffer.length = r :=
      euclid_unique (hsz ▸ hcs) (hsz ▸ h5) hrcs (htot.trans htotal)
    have hackedlen : acked.length = N := hperm.length_eq.trans hdiv.1
    have hackedne : ¬ acked.length = 0 := by omega
    refine ⟨sortParts final, ?_, ?_, ?_⟩
    · simp [complete_upload, hackedne]
    · -- the listed part numbers are 1..N+1 in ascending order
      have hpermsnd : List.Perm ((sortParts final).map Prod.snd)
          (List.range' 1 (N + 1)) := by
        have p1 : List.Perm (sortParts final) final := by
          simp only [sortParts]
          exact List.perm_insertionSort (fun a b : List Nat × Nat => a.2 ≤ b.2) final
        have p2 := (p1.trans hfperm).map Prod.snd
        have : (st.queued ++ [(st.buffer, st.part_number)]).map Prod.snd
            = List.range' 1 (N + 1) := by
          rw [List.map_append, h3, hdiv.1]
          have hpn : st.part_number = N + 1 := by rw [h4, hdiv.1]; omega
          simp only [List.map_cons, List.map_nil, hpn]
          have hone := range'_append_one N 1 1
          simp only [List.range'] at hone
          rw [Nat.add_comm 1 N] at hone
          exact hone
        rw [this] at p2
        exact p2
      have hsorted1 : ((sortParts final).map Prod.snd).Sorted (· ≤ ·) := by
        have hs : (sortParts final).Sorted (fun a b => a.2 ≤ b.2) :=
          List.sorted_insertionSort (fun a b => a.2 ≤ b.2) final
        exact List.Pairwise.map Prod.snd (fun a b hab => hab) hs
      have hsorted2 : (List.range' 1 (N + 1)).Sorted (· ≤ ·) := by
        have h := List.pairwise_lt_range' 1 (N + 1) 1
        exact h.imp (fun hab => le_of_lt hab)
      exact List.eq_of_perm_of_sorted hpermsnd hsorted1 hsorted2
    · have p1 : List.Perm (sortParts final) final := by
        simp only [sortParts]
        exact List.perm_insertionSort (fun a b : List Nat × Nat => a.2 ≤ b.2) final
      have := (p1.trans hfperm).length_eq
      simp only [List.length_append, List.length_cons, List.length_nil] at this
      rw [this, hdiv.1]

/-- Witness for C1: the small-total case at chunk size 3 with input `[1,2]`,
and the two-chunks-plus-remainder case with input `[1,2,3,4,5,6,7]`
(`N = 2`, remainder 1). -/
theorem uploader_complete_upload_calls_witness :
    ((([[1,2]] : List (List Nat)).flatten.length < 3
      ∧ (runUpload 3 [[1,2]]).queued = []
      ∧ complete_upload (runUpload 3 [[1,2]]) (runUpload 3 [[1,2]]).queued []
          = .singlePut [1,2]))
    ∧ (∃ listed,
        complete_upload (runUpload 3 [[1,2,3,4,5,6,7]])
          (runUpload 3 [[1,2,3,4,5,6,7]]).queued
          ((runUpload 3 [[1,2,3,4,5,6,7]]).queued
            ++ [((runUpload 3 [[1,2,3,4,5,6,7]]).buffer,
                 (runUpload 3 [[1,2,3,4,5,6,7]]).part_number)])
          = .multipart listed
        ∧ listed.map Prod.snd = List.range' 1 3
        ∧ listed.length = 3) := by
  have h1 := (uploader_complete_upload_calls 3 [[1,2]] (by decide)).1 (by decide)
  have h2 := (uploader_complete_upload_calls 3 [[1,2,3,4,5,6,7]] (by decide)).2
    2 1 (by decide) (by decide) (by decide) (by decide)
    (runUpload 3 [[1,2,3,4,5,6,7]]).queued
    ((runUpload 3 [[1,2,3,4,5,6,7]]).queued
      ++ [((runUpload 3 [[1,2,3,4,5,6,7]]).buffer,
           (runUpload 3 [[1,2,3,4,5,6,7]]).part_number)])
    (List.Perm.refl _) (List.Perm.refl _)
  refine ⟨⟨by decide, h1.1, ?_⟩, h2⟩
  have := h1.2 (runUpload 3 [[1,2]]).queued [] (List.Perm.refl _)
  simpa using this

end StreamingUploader

/-! ## AudioOutputManager: C9 -/

namespace AudioOutputManager

/-- C9.  Playback Scheduler semantics: `is_finished` returns true exactly when
a request is in flight and wall-clock elapsed time since its start exceeds the
request's `duration_ms` (and false whenever no request is in flight); when the
periodic monitor fires the finished callback for a request, the
currently-playing request and its start time are both cleared afterwards, so a
second monitor pass fires nothing — the callback is invoked exactly once per
completed request. -/
theorem playback_scheduler_finished_semantics :
    (∀ (st : AudioOutputManager) (now : ℚ),
      currently_playing_audio_media_request_is_finished st now = true ↔
        ∃ req t, st.currently_playing_audio_media_request = some req
          ∧ st.currently_playing_audio_media_request_started_at = some t
          ∧ (now - t) * 1000 > req.duration_ms)
    ∧ (∀ (st : AudioOutputManager) (now : ℚ),
      st.currently_playing_audio_media_request = none →
      currently_playing_audio_media_request_is_finished st now = false)
    ∧ (∀ (st st2 : AudioOutputManager) (now now2 : ℚ) (req : MediaRequest),
      monitor_currently_playing_audio_media_request st now = (st2, some req) →
      st.currently_playing_audio_media_request = some req
      ∧ st2.currently_playing_audio_media_request = none
      ∧ st2.currently_playing_audio_media_request_started_at = none
      ∧ ∀ now2steps : ℚ, now2steps = now2 →
          (monitor_currently_playing_audio_media_request st2 now2).2 = none) := by
  refine ⟨?_, ?_, ?_⟩
  · intro st now
    obtain ⟨cur, started⟩ := st
    cases cur with
    | none =>
      simp [currently_playing_audio_media_request_is_finished]
    | some req =>
      cases started with
      | none =>
        simp [currently_playing_audio_media_request_is_finished]
      | some t =>
        simp [currently_playing_audio_media_request_is_finished]
  · intro st now h
    obtain ⟨cur, started⟩ := st
    cases started <;> simp_all [currently_playing_audio_media_request_is_finished]
  · intro st st2 now now2 req h
    unfold monitor_currently_playing_audio_media_request at h
    by_cases hfin : currently_playing_audio_media_request_is_finished st now = true
    · rw [if_pos hfin] at h
      have h1 : st2 = clear_currently_playing_audio_media_request st :=
        ((Prod.ext_iff.mp h).1).symm
      have h2 : st.currently_playing_audio_media_request = some req :=
        (Prod.ext_iff.mp h).2
      have hclear : clear_currently_playing_audio_media_request st
          = (⟨none, none⟩ : AudioOutputManager) := rfl
      rw [hclear] at h1
      subst h1
      exact ⟨h2, rfl, rfl, fun _ _ => rfl⟩
    · rw [if_neg hfin] at h
      have h2 : (none : Option MediaRequest) = some req := (Prod.ext_iff.mp h).2
      exact absurd h2 (by simp)

/-- Witness for C9's monitor clause: a request of duration 100ms started at
time 0 is finished at time 1s; the monitor fires it once and a second pass
fires nothing. -/
theorem playback_scheduler_finished_semantics_witness :
    (⟨some ⟨1, .audio, .PLAYING, 0, 100⟩, some 0⟩ : AudioOutputManager).currently_playing_audio_media_request
        = some ⟨1, .audio, .PLAYING, 0, 100⟩
    ∧ (⟨none, none⟩ : AudioOutputManager).currently_playing_audio_media_request = none
    ∧ (⟨none, none⟩ : AudioOutputManager).currently_playing_audio_media_request_started_at = none
    ∧ ∀ now2steps : ℚ, now2steps = 2 →
        (monitor_currently_playing_audio_media_request ⟨none, none⟩ 2).2 = none :=
  playback_scheduler_finished_semantics.2.2
    ⟨some ⟨1, .audio, .PLAYING, 0, 100⟩, some 0⟩ ⟨none, none⟩ 1 2
    ⟨1, .audio, .PLAYING, 0, 100⟩ (by
      have hfin : currently_playing_audio_media_request_is_finished
          ⟨some ⟨1, .audio, .PLAYING, 0, 100⟩, some 0⟩ 1 = true := by
        show decide (((1:ℚ) - 0) * 1000 > (100:ℚ)) = true
        rw [decide_eq_true_iff]
        norm_num
      unfold monitor_currently_playing_audio_media_request
      rw [if_pos hfin]
      rfl)

end AudioOutputManager

/-! ## GstreamerPipeline: C3 -/

namespace GstreamerPipeline

/-- The three flags `pushUnit` consults, all set by `setup()`. -/
def AllActive (st : PipelineState) : Prop :=
  st.recording_active = true ∧ st.audio_recording_active = true
  ∧ st.has_video_appsrc = true ∧ st.has_audio_appsrc = true

theorem pushUnit_active {st : PipelineState} {e : Int} (ha : AllActive st)
    (he : st.start_time_ns = some e) (u : MediaUnit) :
    pushUnit st u = (st, some (u.time - e)) := by
  obtain ⟨h1, h2, h3, h4⟩ := ha
  obtain ⟨f1, f2, f3, f4, s⟩ := st
  simp only at h1 h2 h3 h4
  subst h1; subst h2; subst h3; subst h4
  simp only at he
  subst he
  cases u with
  | audioChunk t =>
    simp [pushUnit, on_mixed_audio_raw_data_received_callback, MediaUnit.time]
  | videoFrame t =>
    simp [pushUnit, on_new_video_frame, MediaUnit.time]

theorem runPipeline_foldl_active {e : Int} (us : List MediaUnit) :
    ∀ (st : PipelineState) (acc : List (MediaUnit × Int)), AllActive st →
      st.start_time_ns = some e →
      us.foldl
        (fun acc u =>
          let r := pushUnit acc.1 u
          (r.1, acc.2 ++ (r.2.map (fun pts => (u, pts))).toList))
        (st, acc)
      = (st, acc ++ us.map (fun u => (u, u.time - e))) := by
  induction us with
  | nil => intro st acc _ _; simp
  | cons u t ih =>
    intro st acc ha he
    simp only [List.foldl_cons, pushUnit_active ha he u, List.map_cons]
    have := ih st (acc ++ [(u, u.time - e)]) ha he
    simpa [List.append_assoc] using this

/-- C3.  Encode/Mux Pipeline timestamping: starting from the post-`setup()`
state, the first unit pushed (video frame or mixed-audio chunk, whichever
arrives first) establishes the epoch and is assigned presentation timestamp 0,
and every unit in the sequence — audio or video, however interleaved — is
assigned presentation timestamp equal to its wall-clock capture time minus
that epoch. -/
theorem pipeline_epoch_timestamps (u0 : MediaUnit) (units : List MediaUnit) :
    (runPipeline setupState (u0 :: units)).2
      = (u0 :: units).map (fun u => (u, u.time - u0.time)) := by
  have hfirst : pushUnit setupState u0
      = ({ setupState with start_time_ns := some u0.time }, some (u0.time - u0.time)) := by
    cases u0 with
    | audioChunk t =>
      simp [pushUnit, on_mixed_audio_raw_data_received_callback, setupState,
        MediaUnit.time]
    | videoFrame t =>
      simp [pushUnit, on_new_video_frame, setupState, MediaUnit.time]
  have hactive : AllActive { setupState with start_time_ns := some u0.time } :=
    ⟨rfl, rfl, rfl, rfl⟩
  unfold runPipeline
  rw [List.foldl_cons]
  simp only [hfirst]
  rw [runPipeline_foldl_active units _ _ hactive rfl]
  simp [MediaUnit.time]

end GstreamerPipeline

/-! ## BotController media requests: C2 and C8 -/

theorem stateOf_set_media_request_state (db : List MediaRequest) (rid j : Nat)
    (s : BotMediaRequestStates) :
    stateOf (set_media_request_state db rid s) j
      = if j = rid then (stateOf db j).map (fun _ => s) else stateOf db j := by
  induction db with
  | nil =>
    simp only [set_media_request_state, List.map_nil, stateOf]
    split <;> rfl
  | cons a t ih =>
    by_cases haj : a.id = j
    · subst haj
      by_cases har : a.id = rid
      · subst har
        simp [set_media_request_state, stateOf]
      · simp [set_media_request_state, stateOf, har]
    · by_cases har : a.id = rid
      · subst har
        simp only [set_media_request_state, List.map_cons] at *
        simp only [stateOf, if_pos rfl, if_neg haj]
        simpa [set_media_request_state, haj] using ih
      · simp only [set_media_request_state, List.map_cons] at *
        simp only [stateOf, if_neg har, if_neg haj]
        simpa [set_media_request_state] using ih

theorem stateOf_isSome_of_mem {db : List MediaRequest} {r : MediaRequest}
    (hr : r ∈ db) : (stateOf db r.id).isSome := by
  induction db with
  | nil => cases hr
  | cons a t ih =>
    rcases List.mem_cons.mp hr with h | h
    · subst h
      simp [stateOf]
    · by_cases ha : a.id = r.id
      · simp [stateOf, ha]
      · simp only [stateOf, if_neg ha]
        exact ih h

theorem map_id_set_media_request_state (db : List MediaRequest) (rid : Nat)
    (s : BotMediaRequestStates) :
    (set_media_request_state db rid s).map MediaRequest.id
      = db.map MediaRequest.id := by
  unfold set_media_request_state
  rw [List.map_map]
  congr 1
  funext r
  by_cases h : r.id = rid <;> simp [h]

theorem set_set_same (db : List MediaRequest) (i : Nat)
    (s1 s2 : BotMediaRequestStates) :
    set_media_request_state (set_media_request_state db i s1) i s2
      = set_media_request_state db i s2 := by
  unfold set_media_request_state
  rw [List.map_map]
  congr 1
  funext r
  by_cases h : r.id = i <;> simp [h]

theorem id_inj_of_nodup {l : List MediaRequest}
    (h : (l.map MediaRequest.id).Nodup) :
    ∀ a ∈ l, ∀ b ∈ l, a.id = b.id → a = b := by
  induction l with
  | nil => intro a ha; cases ha
  | cons x t ih =>
    simp only [List.map_cons, List.nodup_cons] at h
    intro a ha b hb hab
    rcases List.mem_cons.mp ha with ha1 | ha1 <;>
      rcases List.mem_cons.mp hb with hb1 | hb1
    · rw [ha1, hb1]
    · exfalso
      apply h.1
      rw [ha1] at hab
      rw [hab]
      exact List.mem_map_of_mem MediaRequest.id hb1
    · exfalso
      apply h.1
      rw [hb1] at hab
      rw [← hab]
      exact List.mem_map_of_mem MediaRequest.id ha1
    · exact ih h.2 a ha1 b hb1 hab

theorem head?_mem {α : Type} {l : List α} {a : α} (h : l.head? = some a) :
    a ∈ l := by
  cases l with
  | nil => cases h
  | cons x t =>
    simp only [List.head?] at h
    rw [List.mem_cons]
    exact Or.inl (Option.some.injEq _ _ ▸ h).symm

theorem mem_of_mem_enqueuedOfType {db : List MediaRequest} {r : MediaRequest}
    {mt : BotMediaRequestMediaTypes} (h : r ∈ enqueuedOfType db mt) :
    r ∈ db ∧ r.state = .ENQUEUED ∧ r.media_type = mt := by
  unfold enqueuedOfType at h
  have hp := (List.perm_insertionSort
    (fun a b : MediaRequest => a.created_at ≤ b.created_at) _).mem_iff.mp h
  rw [List.mem_filter] at hp
  exact ⟨hp.1, of_decide_eq_true hp.2⟩

namespace BotController

theorem take_action_audio_eq_success (db : List MediaRequest)
    (aom : AudioOutputManager) (now : ℚ) (oldest : MediaRequest)
    (h1 : oldestEnqueued db .audio = some oldest)
    (h2 : (firstPlaying db .audio).isSome = false) :
    take_action_based_on_audio_media_requests_in_db db aom true now
      = ⟨set_media_request_state db oldest.id .PLAYING,
         aom.start_playing_audio_media_request oldest now⟩ := by
  unfold take_action_based_on_audio_media_requests_in_db
  rw [h1]
  simp [h2]

theorem take_action_audio_eq_failure (db : List MediaRequest)
    (aom : AudioOutputManager) (now : ℚ) (oldest : MediaRequest)
    (h1 : oldestEnqueued db .audio = some oldest)
    (h2 : (firstPlaying db .audio).isSome = false) :
    take_action_based_on_audio_media_requests_in_db db aom false now
      = ⟨set_media_request_state db oldest.id .FAILED, aom⟩ := by
  unfold take_action_based_on_audio_media_requests_in_db
  rw [h1]
  simp [h2, set_set_same]

/-- C2 counterexample: with an audio request playing and one image request
enqueued, the Playback Scheduler's finished-callback
(`currently_playing_audio_media_request_finished`) leaves the image request
ENQUEUED — it is not advanced (not Playing, not Finished, not Dropped),
contradicting the claim that on completion the Controller also advances the
latest enqueued image request.  Image requests are only advanced by
`take_action_based_on_image_media_requests_in_db` (the `sync_media_requests`
path). -/
theorem playback_finished_ignores_images_counterexample :
    stateOf (currently_playing_audio_media_request_finished
        [⟨1, .audio, .PLAYING, 0, 100⟩, ⟨2, .image, .ENQUEUED, 1, 0⟩]
        AudioOutputManager.initState 1 true 5).db 2 = some .ENQUEUED
    ∧ stateOf (currently_playing_audio_media_request_finished
        [⟨1, .audio, .PLAYING, 0, 100⟩, ⟨2, .image, .ENQUEUED, 1, 0⟩]
        AudioOutputManager.initState 1 true 5).db 2 ≠ some .FINISHED
    ∧ stateOf (currently_playing_audio_media_request_finished
        [⟨1, .audio, .PLAYING, 0, 100⟩, ⟨2, .image, .ENQUEUED, 1, 0⟩]
        AudioOutputManager.initState 1 true 5).db 2 ≠ some .DROPPED := by
  refine ⟨?_, ?_, ?_⟩ <;> decide

/-- C2 (amended).  When the Playback Scheduler reports the currently playing
audio request finished, the Controller advances only the oldest Enqueued audio
MediaRequest; the states of image requests are untouched by that callback.
The latest-image advance happens in
`take_action_based_on_image_media_requests_in_db` (run on `sync_media_requests`):
with two image MediaRequests enqueued before either is processed, one
invocation finishes exactly the newest and marks the older one Dropped. -/
theorem media_request_advancement :
    (∀ (db : List MediaRequest) (aom : AudioOutputManager) (req_id : Nat)
        (send_ok : Bool) (now : ℚ) (r : MediaRequest),
      (db.map MediaRequest.id).Nodup → r ∈ db → r.media_type = .image →
      r.id ≠ req_id →
      stateOf (currently_playing_audio_media_request_finished
          db aom req_id send_ok now).db r.id = stateOf db r.id)
    ∧ (∀ (db : List MediaRequest) (aom : AudioOutputManager) (req_id : Nat)
        (now : ℚ) (oldest : MediaRequest),
      oldestEnqueued (set_media_request_state db req_id .FINISHED) .audio
          = some oldest →
      (firstPlaying (set_media_request_state db req_id .FINISHED) .audio).isSome
          = false →
      stateOf (currently_playing_audio_media_request_finished
          db aom req_id true now).db oldest.id = some .PLAYING
      ∧ (currently_playing_audio_media_request_finished
          db aom req_id true now).aom
          = aom.start_playing_audio_media_request oldest now)
    ∧ (∀ (db : List MediaRequest) (a b : MediaRequest),
      enqueuedOfType db .image = [a, b] → a.id ≠ b.id →
      stateOf (take_action_based_on_image_media_requests_in_db db true) b.id
          = some .FINISHED
      ∧ stateOf (take_action_based_on_image_media_requests_in_db db true) a.id
          = some .DROPPED
      ∧ ∀ j, j ≠ a.id → j ≠ b.id →
          stateOf (take_action_based_on_image_media_requests_in_db db true) j
            = stateOf db j) := by
  refine ⟨?_, ?_, ?_⟩
  · -- the finished-callback leaves every image request's state unchanged
    intro db aom req_id send_ok now r hnodup hr hrtype hrid
    unfold currently_playing_audio_media_request_finished
    have hstep : stateOf (set_media_request_state db req_id .FINISHED) r.id
        = stateOf db r.id := by
      rw [stateOf_set_media_request_state, if_neg hrid]
    have hnodup1 : ((set_media_request_state db req_id .FINISHED).map
        MediaRequest.id).Nodup := by
      rw [map_id_set_media_request_state]; exact hnodup
    have hrmem1 : r ∈ set_media_request_state db req_id .FINISHED := by
      unfold set_media_request_state
      have : (fun x : MediaRequest =>
          if x.id = req_id then { x with state := BotMediaRequestStates.FINISHED }
          else x) r = r := if_neg hrid
      rw [← this]
      exact List.mem_map_of_mem _ hr
    cases holdest : oldestEnqueued (set_media_request_state db req_id .FINISHED)
        .audio with
    | none =>
      have hact : take_action_based_on_audio_media_requests_in_db
          (set_media_request_state db req_id .FINISHED) aom send_ok now
          = ⟨set_media_request_state db req_id .FINISHED, aom⟩ := by
        unfold take_action_based_on_audio_media_requests_in_db
        rw [holdest]
      rw [hact]
      exact hstep
    | some oldest =>
      have homem := mem_of_mem_enqueuedOfType
        (head?_mem (h := holdest))
      have hne : r.id ≠ oldest.id := by
        intro he
        have : r = oldest :=
          id_inj_of_nodup hnodup1 r hrmem1 oldest homem.1 he
        rw [this] at hrtype
        rw [homem.2.2] at hrtype
        cases hrtype
      by_cases hplay : (firstPlaying (set_media_request_state db req_id
          .FINISHED) .audio).isSome
      · have hact : take_action_based_on_audio_media_requests_in_db
            (set_media_request_state db req_id .FINISHED) aom send_ok now
            = ⟨set_media_request_state db req_id .FINISHED, aom⟩ := by
          unfold take_action_based_on_audio_media_requests_in_db
          rw [holdest]
          simp [hplay]
        rw [hact]
        exact hstep
      · have hplay2 : (firstPlaying (set_media_request_state db req_id
            .FINISHED) .audio).isSome = false := by
          simpa using hplay
        cases hsend : send_ok
        · rw [take_action_audio_eq_failure _ aom now oldest holdest hplay2]
          show stateOf (set_media_request_state
            (set_media_request_state db req_id .FINISHED) oldest.id .FAILED)
            r.id = stateOf db r.id
          rw [stateOf_set_media_request_state, if_neg hne, hstep]
        · rw [take_action_audio_eq_success _ aom now oldest holdest hplay2]
          show stateOf (set_media_request_state
            (set_media_request_state db req_id .FINISHED) oldest.id .PLAYING)
            r.id = stateOf db r.id
          rw [stateOf_set_media_request_state, if_neg hne, hstep]
  · -- the finished-callback advances the oldest enqueued audio request
    intro db aom req_id now oldest h1 h2
    unfold currently_playing_audio_media_request_finished
    rw [take_action_audio_eq_success _ aom now oldest h1 h2]
    refine ⟨?_, rfl⟩
    have homem := mem_of_mem_enqueuedOfType (head?_mem (h := h1))
    have hsome := stateOf_isSome_of_mem homem.1
    rw [stateOf_set_media_request_state, if_pos rfl]
    obtain ⟨s0, hs0⟩ := Option.isSome_iff_exists.mp hsome
    rw [hs0]
    rfl
  · -- the image action finishes the newest and drops the older
    intro db a b henq hab
    have hbmem : b ∈ db := (mem_of_mem_enqueuedOfType (by rw [henq]; simp)).1
    have hamem : a ∈ db := (mem_of_mem_enqueuedOfType (by rw [henq]; simp)).1
    have hres : take_action_based_on_image_media_requests_in_db db true
        = set_media_request_state
            (set_media_request_state db b.id .FINISHED) a.id .DROPPED := by
      unfold take_action_based_on_image_media_requests_in_db
      rw [henq]
      simp only [List.getLast?]
      rw [List.filter_cons, List.filter_cons, List.filter_nil]
      simp [hab, set_set_same]
    refine ⟨?_, ?_, ?_⟩
    · rw [hres, stateOf_set_media_request_state, if_neg (Ne.symm hab),
        stateOf_set_media_request_state, if_pos rfl]
      obtain ⟨s0, hs0⟩ := Option.isSome_iff_exists.mp (stateOf_isSome_of_mem hbmem)
      rw [hs0]
      rfl
    · rw [hres, stateOf_set_media_request_state, if_pos rfl,
        stateOf_set_media_request_state, if_neg hab]
      obtain ⟨s0, hs0⟩ := Option.isSome_iff_exists.mp (stateOf_isSome_of_mem hamem)
      rw [hs0]
      rfl
    · intro j hja hjb
      rw [hres, stateOf_set_media_request_state, if_neg hja,
        stateOf_set_media_request_state, if_neg hjb]

/-- Witness for C2 (amended): part 1 at a playing audio request (id 1) plus an
enqueued image request (id 2), and part 3 at two enqueued image requests. -/
theorem media_request_advancement_witness :
    (stateOf (currently_playing_audio_media_request_finished
        [⟨1, .audio, .PLAYING, 0, 100⟩, ⟨2, .image, .ENQUEUED, 1, 0⟩]
        AudioOutputManager.initState 1 true 5).db 2
      = stateOf [⟨1, .audio, .PLAYING, 0, 100⟩, ⟨2, .image, .ENQUEUED, 1, 0⟩] 2)
    ∧ (stateOf (take_action_based_on_image_media_requests_in_db
          [⟨1, .image, .ENQUEUED, 0, 0⟩, ⟨2, .image, .ENQUEUED, 1, 0⟩] true) 2
        = some .FINISHED
      ∧ stateOf (take_action_based_on_image_media_requests_in_db
          [⟨1, .image, .ENQUEUED, 0, 0⟩, ⟨2, .image, .ENQUEUED, 1, 0⟩] true) 1
        = some .DROPPED) := by
  constructor
  · exact media_request_advancement.1
      [⟨1, .audio, .PLAYING, 0, 100⟩, ⟨2, .image, .ENQUEUED, 1, 0⟩]
      AudioOutputManager.initState 1 true 5 ⟨2, .image, .ENQUEUED, 1, 0⟩
      (by decide) (by simp) rfl (by decide)
  · have h := media_request_advancement.2.2
      [⟨1, .image, .ENQUEUED, 0, 0⟩, ⟨2, .image, .ENQUEUED, 1, 0⟩]
      ⟨1, .image, .ENQUEUED, 0, 0⟩ ⟨2, .image, .ENQUEUED, 1, 0⟩
      (by decide) (by decide)
    exact ⟨h.1, h.2.1⟩

/-- C8.  Media send failure handling: when the session-facing send raises
(`send_ok = false`, in particular when `on_mic_start_send_callback` has not
fired), the advanced audio request ends FAILED — not Playing and not Finished —
the Playback Scheduler is not started for it, the request leaves the enqueued
set (so subsequent Controller passes skip it and continue with other work),
and every other record is untouched. -/
theorem media_send_failure_marks_request_failed (db : List MediaRequest)
    (aom : AudioOutputManager) (now : ℚ) (oldest : MediaRequest)
    (h1 : oldestEnqueued db .audio = some oldest)
    (h2 : (firstPlaying db .audio).isSome = false) :
    stateOf (take_action_based_on_audio_media_requests_in_db
        db aom false now).db oldest.id = some .FAILED
    ∧ (take_action_based_on_audio_media_requests_in_db db aom false now).aom
        = aom
    ∧ (∀ r ∈ enqueuedOfType (take_action_based_on_audio_media_requests_in_db
          db aom false now).db .audio, r.id ≠ oldest.id)
    ∧ (∀ j, j ≠ oldest.id →
        stateOf (take_action_based_on_audio_media_requests_in_db
          db aom false now).db j = stateOf db j) := by
  rw [take_action_audio_eq_failure db aom now oldest h1 h2]
  have homem := mem_of_mem_enqueuedOfType (head?_mem (h := h1))
  refine ⟨?_, rfl, ?_, ?_⟩
  · rw [stateOf_set_media_request_state, if_pos rfl]
    obtain ⟨s0, hs0⟩ := Option.isSome_iff_exists.mp (stateOf_isSome_of_mem homem.1)
    rw [hs0]
    rfl
  · intro r hr hrid
    have hrdb := (mem_of_mem_enqueuedOfType hr).1
    have hrstate := (mem_of_mem_enqueuedOfType hr).2.1
    unfold set_media_request_state at hrdb
    obtain ⟨r0, hr0, hr0eq⟩ := List.mem_map.mp hrdb
    by_cases h0 : r0.id = oldest.id
    · rw [if_pos h0] at hr0eq
      rw [← hr0eq] at hrstate
      cases hrstate
    · rw [if_neg h0] at hr0eq
      rw [← hr0eq] at hrid
      exact h0 hrid
  · intro j hj
    rw [stateOf_set_media_request_state, if_neg hj]

/-- Witness for C8 at a single enqueued audio request. -/
theorem media_send_failure_marks_request_failed_witness :
    stateOf (take_action_based_on_audio_media_requests_in_db
        [⟨1, .audio, .ENQUEUED, 0, 100⟩]
        AudioOutputManager.initState false 0).db 1 = some .FAILED
    ∧ (take_action_based_on_audio_media_requests_in_db
        [⟨1, .audio, .ENQUEUED, 0, 100⟩]
        AudioOutputManager.initState false 0).aom = AudioOutputManager.initState
    ∧ (∀ r ∈ enqueuedOfType (take_action_based_on_audio_media_requests_in_db
          [⟨1, .audio, .ENQUEUED, 0, 100⟩]
          AudioOutputManager.initState false 0).db .audio, r.id ≠ 1)
    ∧ (∀ j, j ≠ 1 →
        stateOf (take_action_based_on_audio_media_requests_in_db
          [⟨1, .audio, .ENQUEUED, 0, 100⟩]
          AudioOutputManager.initState false 0).db j
          = stateOf [⟨1, .audio, .ENQUEUED, 0, 100⟩] j) :=
  media_send_failure_marks_request_failed
    [⟨1, .audio, .ENQUEUED, 0, 100⟩] AudioOutputManager.initState 0
    ⟨1, .audio, .ENQUEUED, 0, 100⟩ (by decide) (by decide)

end BotController

/-! ## IndividualAudioInputManager: C4 and C5 -/

namespace IndividualAudioInputManager

@[simp] theorem upd_same {α : Type} (f : Nat → Option α) (k : Nat)
    (v : Option α) : upd f k v k = v := by
  simp [upd]

theorem upd_ne {α : Type} (f : Nat → Option α) (k : Nat) (v : Option α)
    {x : Nat} (h : x ≠ k) : upd f k v x = f x := by
  simp [upd, h]

@[simp] theorem upd_upd_same {α : Type} (f : Nat → Option α) (k : Nat)
    (v w : Option α) : upd (upd f k v) k w = upd f k w := by
  funext x
  by_cases h : x = k <;> simp [upd, h]

theorem process_chunk_open (sil : List Nat → Bool) (getP : Nat → Option Nat)
    (st : SegmenterState) (s : Nat) (t : ℚ) (b : List Nat)
    (hbuf : ((st.utterances s).getD []).isEmpty = true)
    (hb : b.isEmpty = false) (hsil : sil b = false)
    (hsize : b.length < UTTERANCE_SIZE_LIMIT) :
    process_chunk sil getP st s t (some b) = (openState st s b t, []) := by
  have hnotfull : ¬ (b.length ≥ UTTERANCE_SIZE_LIMIT) := by omega
  unfold process_chunk process_chunk_core
  simp [chunkSilent, appendedOf, hb, hsil, hbuf, hnotfull, openState]

theorem process_chunk_tick_quiet (sil : List Nat → Bool) (getP : Nat → Option Nat)
    (st : SegmenterState) (s : Nat) (t t0 : ℚ) (b : List Nat)
    (hb : b.isEmpty = false)
    (hsize : b.length < UTTERANCE_SIZE_LIMIT)
    (hdur : t - t0 < SILENCE_DURATION_LIMIT) :
    process_chunk sil getP (openState st s b t0) s t none
      = (openState st s b t0, []) := by
  have hnotfull : ¬ (b.length ≥ UTTERANCE_SIZE_LIMIT) := by omega
  have hnotlimit : ¬ (t - t0 ≥ SILENCE_DURATION_LIMIT) := by linarith
  unfold process_chunk process_chunk_core
  simp [chunkSilent, appendedOf, openState, hb, hnotfull, hnotlimit]

theorem process_chunk_tick_flush (sil : List Nat → Bool) (getP : Nat → Option Nat)
    (st : SegmenterState) (s : Nat) (t t0 : ℚ) (b : List Nat) (p : Nat)
    (hb : b.isEmpty = false)
    (hdur : t - t0 ≥ SILENCE_DURATION_LIMIT)
    (hgetP : getP s = some p) :
    process_chunk sil getP (openState st s b t0) s t none
      = (flushedState st s,
         [{ participant := p, audio_data := b, timestamp := t0,
            flush_reason := "silence_limit" }]) := by
  unfold process_chunk process_chunk_core
  simp [chunkSilent, appendedOf, openState, flushedState, hb, hdur, hgetP]

theorem process_chunk_buffer_full (sil : List Nat → Bool) (getP : Nat → Option Nat)
    (st : SegmenterState) (s : Nat) (t ts : ℚ) (d b : List Nat) (p : Nat)
    (hd : st.utterances s = some d)
    (hdne : d.isEmpty = false)
    (hfirst : st.first_nonsilent_audio_time s = some ts)
    (hb : b.isEmpty = false) (hsil : sil b = false)
    (hcap : d.length + b.length ≥ UTTERANCE_SIZE_LIMIT)
    (hgetP : getP s = some p) :
    process_chunk sil getP st s t (some b)
      = (flushedState st s,
         [{ participant := p, audio_data := d ++ b, timestamp := ts,
            flush_reason := "buffer_full" }]) := by
  have hfull : (d ++ b).length ≥ UTTERANCE_SIZE_LIMIT := by
    simp only [List.length_append]
    omega
  unfold process_chunk process_chunk_core
  simp [chunkSilent, appendedOf, flushedState, hd, hdne, hb, hsil, hfull, hgetP, hfirst]
  refine ⟨by omega, fun hd0 hb0 => ?_⟩
  rw [hb0] at hb
  simp at hb

theorem process_chunk_other (sil : List Nat → Bool) (getP : Nat → Option Nat)
    (st : SegmenterState) (s : Nat) (t : ℚ) (bs : Option (List Nat))
    {x : Nat} (hx : x ≠ s) :
    (process_chunk sil getP st s t bs).1.utterances x = st.utterances x
    ∧ (process_chunk sil getP st s t bs).1.first_nonsilent_audio_time x
        = st.first_nonsilent_audio_time x
    ∧ (process_chunk sil getP st s t bs).1.last_nonsilent_audio_time x
        = st.last_nonsilent_audio_time x := by
  simp only [process_chunk, process_chunk_core]
  split_ifs <;> simp [upd, hx]

theorem process_chunk_core_TimingInv (getP : Nat → Option Nat)
    (st1 : SegmenterState) (s : Nat) (t : ℚ) (bs : Option (List Nat))
    (silent : Bool)
    (hA : (appendedOf st1 s bs).isEmpty = false)
    (hf : (st1.first_nonsilent_audio_time s).isSome = true)
    (hl : (st1.last_nonsilent_audio_time s).isSome = true)
    (hother : ∀ x, x ≠ s →
      ((st1.first_nonsilent_audio_time x).isSome ↔
          ((st1.utterances x).getD []).isEmpty = false)
      ∧ ((st1.last_nonsilent_audio_time x).isSome ↔
          ((st1.utterances x).getD []).isEmpty = false)) :
    TimingInv (process_chunk_core getP st1 s t bs silent).1 := by
  intro x
  by_cases hx : x = s
  · subst hx
    simp only [process_chunk_core]
    split_ifs <;> simp [upd, hA, hf, hl]
  · simp only [process_chunk_core]
    split_ifs <;> simp [upd, hx, hother x hx]

theorem process_chunk_TimingInv (sil : List Nat → Bool) (getP : Nat → Option Nat)
    (st : SegmenterState) (s : Nat) (t : ℚ) (bs : Option (List Nat))
    (inv : TimingInv st) :
    TimingInv (process_chunk sil getP st s t bs).1 := by
  by_cases hbuf : ((st.utterances s).getD []).isEmpty
  · by_cases hsilent : chunkSilent sil bs = true
    · have : process_chunk sil getP st s t bs = (st, []) := by
        unfold process_chunk
        simp [hbuf, hsilent]
      rw [this]
      exact inv
    · -- nonsilent chunk on an empty buffer: the buffer is opened first
      rcases bs with _ | b
      · exact absurd rfl hsilent
      · have hbe : b.isEmpty = false := by
          cases hbool : b.isEmpty
          · rfl
          · exact absurd (by simp [chunkSilent, hbool]) hsilent
        have hform : process_chunk sil getP st s t (some b)
            = process_chunk_core getP (openState st s [] t) s t (some b)
              (chunkSilent sil (some b)) := by
          unfold process_chunk
          rw [if_pos hbuf, if_neg hsilent]
          rfl
        rw [hform]
        refine process_chunk_core_TimingInv getP _ s t (some b) _ ?_ ?_ ?_ ?_
        · simp [appendedOf, openState, hbe]
        · simp [openState]
        · simp [openState]
        · intro x hx
          have h1 : (openState st s [] t).first_nonsilent_audio_time x
              = st.first_nonsilent_audio_time x := upd_ne _ _ _ hx
          have h2 : (openState st s [] t).last_nonsilent_audio_time x
              = st.last_nonsilent_audio_time x := upd_ne _ _ _ hx
          have h3 : (openState st s [] t).utterances x = st.utterances x :=
            upd_ne _ _ _ hx
          rw [h1, h2, h3]
          exact inv x
  · -- open buffer: process_chunk goes straight to the core
    have hform : process_chunk sil getP st s t bs
        = process_chunk_core getP st s t bs (chunkSilent sil bs) := by
      unfold process_chunk
      rw [if_neg hbuf]
    rw [hform]
    have hbufne : ((st.utterances s).getD []).isEmpty = false :=
      Bool.not_eq_true _ ▸ hbuf
    refine process_chunk_core_TimingInv getP st s t bs _ ?_ ?_ ?_ ?_
    · rcases bs with _ | b
      · simpa [appendedOf] using hbufne
      · by_cases hbe : b.isEmpty
        · simpa [appendedOf, hbe] using hbufne
        · cases hu : (st.utterances s).getD [] with
          | nil => rw [hu] at hbufne; simp at hbufne
          | cons y ys => simp [appendedOf, hbe, hu]
    · exact ((inv s).1).mpr hbufne
    · exact ((inv s).2).mpr hbufne
    · intro x hx
      exact inv x

theorem process_chunk_events_nonempty (sil : List Nat → Bool)
    (getP : Nat → Option Nat) (st : SegmenterState) (s : Nat) (t : ℚ)
    (bs : Option (List Nat)) :
    ∀ e ∈ (process_chunk sil getP st s t bs).2,
      e.audio_data.isEmpty = false := by
  have hcore : ∀ (st1 : SegmenterState) (silent : Bool),
      ∀ e ∈ (process_chunk_core getP st1 s t bs silent).2,
        e.audio_data.isEmpty = false := by
    intro st1 silent e he
    by_cases hae : (appendedOf st1 s bs).isEmpty
    · simp [process_chunk_core, hae] at he
    · by_cases hsz : (appendedOf st1 s bs).length ≥ UTTERANCE_SIZE_LIMIT <;>
        by_cases hsd : t - (st1.last_nonsilent_audio_time s).getD 0
            ≥ SILENCE_DURATION_LIMIT <;>
        rcases hgp : getP s with _ | p <;>
        cases silent <;>
        simp [process_chunk_core, hae, hsz, hsd, hgp] at he <;>
        simp [he, hae]
  intro e he
  simp only [process_chunk] at he
  by_cases hbuf : ((st.utterances s).getD []).isEmpty = true
  · rw [if_pos hbuf] at he
    by_cases hsil : chunkSilent sil bs = true
    · rw [if_pos hsil] at he
      cases he
    · rw [if_neg hsil] at he
      exact hcore _ _ e he
  · rw [if_neg hbuf] at he
    exact hcore _ _ e he

theorem process_chunk_list_TimingInv (sil : List Nat → Bool)
    (getP : Nat → Option Nat) (chunks : List QueuedChunk) :
    ∀ (st : SegmenterState) (acc : List FlushEvent), TimingInv st →
      (∀ e ∈ acc, e.audio_data.isEmpty = false) →
      TimingInv ((chunks.foldl
        (fun acc c =>
          let r := process_chunk sil getP acc.1 c.1 c.2.1 c.2.2
          (r.1, acc.2 ++ r.2)) (st, acc)).1)
      ∧ ∀ e ∈ (chunks.foldl
          (fun acc c =>
            let r := process_chunk sil getP acc.1 c.1 c.2.1 c.2.2
            (r.1, acc.2 ++ r.2)) (st, acc)).2,
          e.audio_data.isEmpty = false := by
  induction chunks with
  | nil => intro st acc hinv hacc; exact ⟨hinv, hacc⟩
  | cons c rest ih =>
    intro st acc hinv hacc
    rw [List.foldl_cons]
    refine ih _ _ (process_chunk_TimingInv sil getP st c.1 c.2.1 c.2.2 hinv) ?_
    intro e he
    rcases List.mem_append.mp he with h | h
    · exact hacc e h
    · exact process_chunk_events_nonempty sil getP st c.1 c.2.1 c.2.2 e h

theorem process_chunk_list_ticks_quiet (sil : List Nat → Bool)
    (getP : Nat → Option Nat) (st : SegmenterState) (s : Nat) (b : List Nat)
    (t0 : ℚ) (hb : b.isEmpty = false) (hsize : b.length < UTTERANCE_SIZE_LIMIT)
    (pre : List ℚ) :
    ∀ (acc : List FlushEvent), (∀ t ∈ pre, t - t0 < SILENCE_DURATION_LIMIT) →
      (pre.map fun t => ((s, t, none) : QueuedChunk)).foldl
        (fun acc c =>
          let r := process_chunk sil getP acc.1 c.1 c.2.1 c.2.2
          (r.1, acc.2 ++ r.2)) (openState st s b t0, acc)
      = (openState st s b t0, acc) := by
  induction pre with
  | nil => intro acc _; rfl
  | cons t rest ih =>
    intro acc hpre
    rw [List.map_cons, List.foldl_cons]
    have hq := process_chunk_tick_quiet sil getP st s t t0 b hb hsize
      (hpre t (by simp))
    simp only [hq, List.append_nil]
    exact ih acc (fun u hu => hpre u (by simp [hu]))

/-- C4.  Utterance Segmenter flush triggers.  (1) For any speaker with no open
buffer, one nonsilent chunk followed by synthetic no-audio ticks, the earlier
ones less than 3 seconds after the nonsilent chunk and the last one at least
3 seconds after it, triggers exactly one flush, with flush reason
"silence_limit" and exactly the buffered audio, after which the speaker's
accumulated buffer is empty and the timing state is gone.  (2) Whenever a
nonsilent chunk pushes a speaker's open accumulated buffer to at least
`UTTERANCE_SIZE_LIMIT = 19200000` bytes, that chunk triggers a flush with
flush reason "buffer_full" even though the audio is not silent. -/
theorem segmenter_flush_triggers :
    (∀ (sil : List Nat → Bool) (getP : Nat → Option Nat) (st0 : SegmenterState)
        (s : Nat) (b : List Nat) (t0 : ℚ) (pre : List ℚ) (tn : ℚ) (p : Nat),
      ((st0.utterances s).getD []).isEmpty = true →
      b.isEmpty = false → sil b = false → b.length < UTTERANCE_SIZE_LIMIT →
      (∀ t ∈ pre, t - t0 < SILENCE_DURATION_LIMIT) →
      tn - t0 ≥ SILENCE_DURATION_LIMIT →
      getP s = some p →
      process_chunk_list sil getP st0
          ((s, t0, some b) :: (pre.map (fun t => (s, t, none)) ++ [(s, tn, none)]))
        = (flushedState st0 s,
           [{ participant := p, audio_data := b, timestamp := t0,
              flush_reason := "silence_limit" }]))
    ∧ (∀ (sil : List Nat → Bool) (getP : Nat → Option Nat) (st : SegmenterState)
        (s : Nat) (t ts : ℚ) (d b : List Nat) (p : Nat),
      st.utterances s = some d → d.isEmpty = false →
      st.first_nonsilent_audio_time s = some ts →
      b.isEmpty = false → sil b = false →
      d.length + b.length ≥ UTTERANCE_SIZE_LIMIT →
      getP s = some p →
      process_chunk sil getP st s t (some b)
        = (flushedState st s,
           [{ participant := p, audio_data := d ++ b, timestamp := ts,
              flush_reason := "buffer_full" }])) := by
  constructor
  · intro sil getP st0 s b t0 pre tn p hbuf hb hsil hsize hpre htn hgetP
    unfold process_chunk_list
    rw [List.foldl_cons]
    have hopen := process_chunk_open sil getP st0 s t0 b hbuf hb hsil hsize
    simp only [hopen, List.nil_append, List.foldl_append]
    rw [process_chunk_list_ticks_quiet sil getP st0 s b t0 hb hsize pre [] hpre]
    rw [List.foldl_cons, List.foldl_nil]
    have hflush := process_chunk_tick_flush sil getP st0 s tn t0 b p hb htn hgetP
    simp [hflush]
  · intro sil getP st s t ts d b p hd hdne hfirst hb hsil hcap hgetP
    exact process_chunk_buffer_full sil getP st s t ts d b p hd hdne hfirst
      hb hsil hcap hgetP

/-- Witness for C4: part 1 with a single-byte nonsilent chunk at time 0,
quiet ticks at 1 and 2, and a flushing tick at 3; part 2 with a
19,200,000-byte open buffer receiving one more nonsilent byte. -/
theorem segmenter_flush_triggers_witness :
    process_chunk_list (fun _ => false) (fun _ => some 7) initState
        ((0, 0, some [1]) :: ([(1:ℚ), 2].map (fun t => (0, t, none))
          ++ [(0, 3, none)]))
      = (flushedState initState 0,
         [{ participant := 7, audio_data := [1], timestamp := 0,
            flush_reason := "silence_limit" }])
    ∧ process_chunk (fun _ => false) (fun _ => some 7)
        (openState initState 0 (List.replicate UTTERANCE_SIZE_LIMIT 0) 0)
        0 1 (some [1])
      = (flushedState (openState initState 0
            (List.replicate UTTERANCE_SIZE_LIMIT 0) 0) 0,
         [{ participant := 7,
            audio_data := List.replicate UTTERANCE_SIZE_LIMIT 0 ++ [1],
            timestamp := 0, flush_reason := "buffer_full" }]) := by
  constructor
  · refine segmenter_flush_triggers.1 (fun _ => false) (fun _ => some 7)
      initState 0 [1] 0 [1, 2] 3 7 (by simp [initState]) rfl rfl (by decide)
      ?_ (by norm_num [SILENCE_DURATION_LIMIT]) rfl
    intro t ht
    rcases List.mem_cons.mp ht with rfl | ht2
    · norm_num [SILENCE_DURATION_LIMIT]
    · rcases List.mem_singleton.mp ht2 with rfl
      norm_num [SILENCE_DURATION_LIMIT]
  · refine segmenter_flush_triggers.2 (fun _ => false) (fun _ => some 7)
      (openState initState 0 (List.replicate UTTERANCE_SIZE_LIMIT 0) 0)
      0 1 0 (List.replicate UTTERANCE_SIZE_LIMIT 0) [1] 7
      (by simp [openState]) ?_ (by simp [openState]) rfl rfl ?_ rfl
    · have : UTTERANCE_SIZE_LIMIT = 19199999 + 1 := by decide
      rw [this, List.replicate_succ]
      rfl
    · rw [List.length_replicate]
      omega

/-- C5.  Utterance Segmenter state invariant, preserved by every
`process_chunk` / `process_chunks` / `flush_utterances` call: the
save-utterance callback is never invoked with empty audio data; a speaker has
first/last-nonsilent timing entries exactly when it has a nonempty accumulated
buffer (the invariant `TimingInv`, which holds of the initial state); a chunk
classified silent for a speaker with no open buffer leaves the state entirely
unchanged and emits nothing; and — the per-speaker dictionaries being maps —
at most one buffer exists per speaker id at any time. -/
theorem segmenter_state_invariant :
    TimingInv initState
    ∧ (∀ (sil : List Nat → Bool) (getP : Nat → Option Nat)
        (st : SegmenterState) (chunks : List QueuedChunk),
      TimingInv st →
      TimingInv (process_chunk_list sil getP st chunks).1
      ∧ ∀ e ∈ (process_chunk_list sil getP st chunks).2,
          e.audio_data.isEmpty = false)
    ∧ (∀ (sil : List Nat → Bool) (getP : Nat → Option Nat)
        (st : SegmenterState) (s : Nat) (t : ℚ) (bs : Option (List Nat)),
      TimingInv st →
      TimingInv (process_chunk sil getP st s t bs).1
      ∧ ∀ e ∈ (process_chunk sil getP st s t bs).2,
          e.audio_data.isEmpty = false)
    ∧ (∀ (sil : List Nat → Bool) (getP : Nat → Option Nat)
        (st : SegmenterState) (queued : List QueuedChunk) (now : ℚ)
        (speakers : List Nat),
      TimingInv st →
      TimingInv (process_chunks sil getP st queued now speakers).1
      ∧ ∀ e ∈ (process_chunks sil getP st queued now speakers).2,
          e.audio_data.isEmpty = false)
    ∧ (∀ (sil : List Nat → Bool) (getP : Nat → Option Nat)
        (st : SegmenterState) (now : ℚ) (speakers : List Nat),
      TimingInv st →
      TimingInv (flush_utterances sil getP st now speakers).1
      ∧ ∀ e ∈ (flush_utterances sil getP st now speakers).2,
          e.audio_data.isEmpty = false)
    ∧ (∀ (sil : List Nat → Bool) (getP : Nat → Option Nat)
        (st : SegmenterState) (s : Nat) (t : ℚ) (bs : Option (List Nat)),
      chunkSilent sil bs = true →
      ((st.utterances s).getD []).isEmpty = true →
      process_chunk sil getP st s t bs = (st, []))
    ∧ (∀ (st : SegmenterState) (s : Nat) (b1 b2 : List Nat),
      st.utterances s = some b1 → st.utterances s = some b2 → b1 = b2) := by
  refine ⟨?_, ?_, ?_, ?_, ?_, ?_, ?_⟩
  · intro s
    simp [initState]
  · intro sil getP st chunks hinv
    unfold process_chunk_list
    exact process_chunk_list_TimingInv sil getP chunks st [] hinv (by simp)
  · intro sil getP st s t bs hinv
    exact ⟨process_chunk_TimingInv sil getP st s t bs hinv,
      process_chunk_events_nonempty sil getP st s t bs⟩
  · intro sil getP st queued now speakers hinv
    unfold process_chunks process_chunk_list
    exact process_chunk_list_TimingInv sil getP _ st [] hinv (by simp)
  · intro sil getP st now speakers hinv
    unfold flush_utterances process_chunk_list
    exact process_chunk_list_TimingInv sil getP _ st [] hinv (by simp)
  · intro sil getP st s t bs hsilent hbuf
    unfold process_chunk
    simp [hbuf, hsilent]
  · intro st s b1 b2 h1 h2
    rw [h1] at h2
    exact Option.some.inj h2

/-- Witness for C5: the invariant holds initially and is preserved across a
concrete nonsilent chunk for speaker 0, and 100 silent chunks for a speaker
with no open buffer are a no-op. -/
theorem segmenter_state_invariant_witness :
    (TimingInv (process_chunk (fun _ => false) (fun _ => some 7)
        initState 0 0 (some [1])).1
      ∧ ∀ e ∈ (process_chunk (fun _ => false) (fun _ => some 7)
          initState 0 0 (some [1])).2, e.audio_data.isEmpty = false)
    ∧ process_chunk (fun _ => true) (fun _ => some 7) initState 5 0 (some [9])
        = (initState, []) := by
  constructor
  · exact segmenter_state_invariant.2.2.1 (fun _ => false) (fun _ => some 7)
      initState 0 0 (some [1]) segmenter_state_invariant.1
  · exact segmenter_state_invariant.2.2.2.2.2.1 (fun _ => true)
      (fun _ => some 7) initState 5 0 (some [9]) rfl (by simp [initState])

end IndividualAudioInputManager

/-! ## ZoomBotAdapter video-source selection: C6 -/

namespace ZoomBotAdapter

theorem set_video_input_manager_fields (st : AdapterState) :
    (set_video_input_manager_based_on_state st).active_speaker_id
        = st.active_speaker_id
    ∧ (set_video_input_manager_based_on_state st).active_sharer_id
        = st.active_sharer_id
    ∧ (set_video_input_manager_based_on_state st).my_participant_id
        = st.my_participant_id := by
  unfold set_video_input_manager_based_on_state
  split_ifs <;> simp

/-- C6.  Video source selection policy: whenever
`set_video_input_manager_based_on_state` runs with the consumer wanting frames
and recording permission granted, an existing (truthy) active sharer yields
`ACTIVE_SHARER(sharer)` regardless of any concurrent active speaker; else an
existing active speaker yields `ACTIVE_SPEAKER(speaker)`; else the mode is
`ACTIVE_SPEAKER` of the first participant in join order that is not the bot,
falling back to the bot itself.  Moreover
`on_user_active_audio_change_callback` never makes the bot its own active
speaker, so an existing active speaker always differs from the bot. -/
theorem video_source_selection_policy :
    (∀ st : AdapterState, st.wants_any_video_frames = true →
      st.recording_permission_granted = true →
      (truthy st.active_sharer_id = true →
        (set_video_input_manager_based_on_state st).video_mode
          = some (.activeSharer st.active_sharer_id))
      ∧ (truthy st.active_sharer_id = false →
          truthy st.active_speaker_id = true →
        (set_video_input_manager_based_on_state st).video_mode
          = some (.activeSpeaker st.active_speaker_id))
      ∧ (truthy st.active_sharer_id = false →
          truthy st.active_speaker_id = false →
        (set_video_input_manager_based_on_state st).video_mode
          = some (.activeSpeaker (some
              ((st.participants.find? fun q =>
                  decide (q ≠ st.my_participant_id)).getD
                st.my_participant_id)))))
    ∧ (∀ (st : AdapterState) (user_ids : List Nat),
      st.active_speaker_id ≠ some st.my_participant_id →
      (on_user_active_audio_change_callback st user_ids).active_speaker_id
        ≠ some (on_user_active_audio_change_callback st
            user_ids).my_participant_id) := by
  constructor
  · intro st hw hp
    refine ⟨?_, ?_, ?_⟩
    · intro hsh
      unfold set_video_input_manager_based_on_state
      simp [hw, hp, hsh]
    · intro hsh hspk
      unfold set_video_input_manager_based_on_state
      simp [hw, hp, hsh, hspk]
    · intro hsh hspk
      unfold set_video_input_manager_based_on_state
      simp [hw, hp, hsh, hspk]
  · intro st user_ids hne
    cases user_ids with
    | nil => exact hne
    | cons u rest =>
      unfold on_user_active_audio_change_callback
      by_cases h1 : u = st.my_participant_id
      · simp only [if_pos h1]
        exact hne
      · by_cases h2 : st.active_speaker_id = some u
        · simp only [if_neg h1, if_pos h2]
          exact hne
        · simp only [if_neg h1, if_neg h2]
          have hf := set_video_input_manager_fields
            { st with active_speaker_id := some u }
          rw [hf.1, hf.2.2]
          intro hc
          exact h1 (Option.some.inj hc)

/-- Witness for C6: with participants `[10, 1, 2]` and bot id 10, no sharer
and no speaker resolve to `ACTIVE_SPEAKER 1` (first non-bot participant); an
active sharer 3 wins over a concurrent active speaker 2; and an
active-speaker event for the bot's own id never selects the bot. -/
theorem video_source_selection_policy_witness :
    (set_video_input_manager_based_on_state
        ⟨true, true, none, none, 10, [10, 1, 2], none⟩).video_mode
      = some (.activeSpeaker (some 1))
    ∧ (set_video_input_manager_based_on_state
        ⟨true, true, some 3, some 2, 10, [10, 1, 2], none⟩).video_mode
      = some (.activeSharer (some 3))
    ∧ (on_user_active_audio_change_callback
        ⟨true, true, none, none, 10, [10, 1, 2], none⟩ [10]).active_speaker_id
      ≠ some (on_user_active_audio_change_callback
        ⟨true, true, none, none, 10, [10, 1, 2], none⟩ [10]).my_participant_id := by
  refine ⟨?_, ?_, ?_⟩
  · have h := (video_source_selection_policy.1
      ⟨true, true, none, none, 10, [10, 1, 2], none⟩ rfl rfl).2.2 rfl rfl
    simpa using h
  · exact (video_source_selection_policy.1
      ⟨true, true, some 3, some 2, 10, [10, 1, 2], none⟩ rfl rfl).1 rfl
  · exact video_source_selection_policy.2
      ⟨true, true, none, none, 10, [10, 1, 2], none⟩ [10] (by simp)

end ZoomBotAdapter

/-! ## Frame scaler: C7 -/

namespace VideoInputManager

theorem flattenPlane_succ (f : Nat → Nat → Nat) (w h : Nat) :
    flattenPlane f w (h + 1)
      = flattenPlane f w h ++ (List.range w).map (f h) := by
  unfold flattenPlane
  rw [List.range_succ, List.map_append, List.flatten_append]
  simp

theorem length_flattenPlane (f : Nat → Nat → Nat) (w h : Nat) :
    (flattenPlane f w h).length = h * w := by
  induction h with
  | zero => simp [flattenPlane]
  | succ n ih =>
    rw [flattenPlane_succ, List.length_append, ih, List.length_map,
      List.length_range]
    ring

theorem idx_lt {r w c n : Nat} (hr : r < n) (hc : c < w) :
    r * w + c < n * w := by
  calc r * w + c < r * w + w := by omega
  _ = (r + 1) * w := by ring
  _ ≤ n * w := Nat.mul_le_mul_right w hr

theorem getElem?_flattenPlane (f : Nat → Nat → Nat) (w : Nat) :
    ∀ (h r c : Nat), r < h → c < w →
      (flattenPlane f w h)[r * w + c]? = some (f r c) := by
  intro h
  induction h with
  | zero => intro r c hr _; exact absurd hr (Nat.not_lt_zero r)
  | succ n ih =>
    intro r c hr hc
    rw [flattenPlane_succ]
    by_cases hrn : r < n
    · rw [List.getElem?_append_left (by rw [length_flattenPlane]; exact idx_lt hrn hc)]
      exact ih r c hrn hc
    · have hrn2 : r = n := by omega
      subst hrn2
      rw [List.getElem?_append_right (by rw [length_flattenPlane]; omega)]
      rw [length_flattenPlane]
      have hsub : r * w + c - r * w = c := by omega
      rw [hsub, List.getElem?_map, List.getElem?_range hc]
      rfl

theorem round_toNat_le (x : ℚ) (n : Nat) (hx : x < n) : (round x).toNat ≤ n := by
  rw [round_eq]
  have h1 : (⌊x + 1 / 2⌋ : ℚ) ≤ x + 1 / 2 := Int.floor_le _
  have h2 : (⌊x + 1 / 2⌋ : ℚ) < (n : ℚ) + 1 := by linarith
  have h3 : ⌊x + 1 / 2⌋ < (n : ℤ) + 1 := by exact_mod_cast h2
  omega

theorem aspect_nonneg (w h : Nat) : 0 ≤ aspect w h := by
  unfold aspect
  positivity

theorem fit_width_height_lt {w h nw nh : Nat} (hh : 0 < h) (hnh : 0 < nh)
    (hgt : aspect w h > aspect nw nh) :
    (nw : ℚ) / aspect w h < (nh : ℚ) := by
  have hw : 0 < (w : ℚ) := by
    rcases Nat.eq_zero_or_pos w with hw0 | hw0
    · exfalso
      have hz : aspect w h = 0 := by simp [aspect, hw0]
      have hp : 0 ≤ aspect nw nh := aspect_nonneg nw nh
      linarith [hgt, hz, hp]
    · exact_mod_cast hw0
  have hhq : 0 < (h : ℚ) := by exact_mod_cast hh
  have hnhq : 0 < (nh : ℚ) := by exact_mod_cast hnh
  have hgt2 : (nw : ℚ) / (nh : ℚ) < (w : ℚ) / (h : ℚ) := hgt
  rw [div_lt_div_iff₀ hnhq hhq] at hgt2
  unfold aspect
  rw [div_div_eq_mul_div, div_lt_iff₀ hw]
  nlinarith [hgt2]

theorem fit_height_width_lt {w h nw nh : Nat} (hh : 0 < h) (hnh : 0 < nh)
    (hlt : aspect w h < aspect nw nh) :
    (nh : ℚ) * aspect w h < (nw : ℚ) := by
  have hhq : 0 < (h : ℚ) := by exact_mod_cast hh
  have hnhq : 0 < (nh : ℚ) := by exact_mod_cast hnh
  have hlt2 : (w : ℚ) / (h : ℚ) < (nw : ℚ) / (nh : ℚ) := hlt
  rw [div_lt_div_iff₀ hhq hnhq] at hlt2
  unfold aspect
  rw [mul_div_assoc']
  rw [div_lt_iff₀ hhq]
  nlinarith [hlt2]

theorem scaledDims_le {w h nw nh : Nat} (hh : 0 < h) (hnh : 0 < nh) :
    (scaledDims w h nw nh).2 ≤ nh ∧ (scaledDims w h nw nh).1 ≤ nw
    ∧ (aspect w h > aspect nw nh → (scaledDims w h nw nh).1 = nw)
    ∧ (¬ aspect w h > aspect nw nh → (scaledDims w h nw nh).2 = nh) := by
  unfold scaledDims
  by_cases hgt : aspect w h > aspect nw nh
  · rw [if_pos hgt]
    refine ⟨round_toNat_le _ nh (fit_width_height_lt hh hnh hgt), le_refl nw,
      fun _ => rfl, fun hc => absurd hgt hc⟩
  · rw [if_neg hgt]
    refine ⟨le_refl nh, ?_, fun hc => absurd hc hgt, fun _ => rfl⟩
    show (round ((nh : ℚ) * aspect w h)).toNat ≤ nw
    rcases lt_or_eq_of_le (not_lt.mp hgt) with hlt | heq
    · exact round_toNat_le _ nw (fit_height_width_lt hh hnh hlt)
    · have hnh0 : (0 : ℚ) < (nh : ℚ) := by exact_mod_cast hnh
      have hval : (nh : ℚ) * aspect w h = (nw : ℚ) := by
        rw [heq]
        unfold aspect
        field_simp
      rw [hval, round_natCast]
      simp

theorem scale_i420_eq_direct (resize : Resizer) (frame : I420Frame)
    (nw nh : Nat)
    (heq : |aspect frame.width frame.height - aspect nw nh| < 1 / 1000000) :
    scale_i420 resize frame nw nh
      = flattenPlane (resize frame.yBuf frame.width frame.height nw nh) nw nh
        ++ flattenPlane (resize frame.uBuf (frame.width / 2) (frame.height / 2)
            (nw / 2) (nh / 2)) (nw / 2) (nh / 2)
        ++ flattenPlane (resize frame.vBuf (frame.width / 2) (frame.height / 2)
            (nw / 2) (nh / 2)) (nw / 2) (nh / 2) := by
  unfold scale_i420
  rw [if_pos heq]

theorem scale_i420_eq_letterbox (resize : Resizer) (frame : I420Frame)
    (nw nh : Nat)
    (hne : ¬ |aspect frame.width frame.height - aspect nw nh| < 1 / 1000000) :
    scale_i420 resize frame nw nh
      = flattenPlane
          (letterY (resize frame.yBuf frame.width frame.height
              (scaledDims frame.width frame.height nw nh).1
              (scaledDims frame.width frame.height nw nh).2)
            ((nh - (scaledDims frame.width frame.height nw nh).2) / 2)
            ((nw - (scaledDims frame.width frame.height nw nh).1) / 2)
            (scaledDims frame.width frame.height nw nh).2
            (scaledDims frame.width frame.height nw nh).1) nw nh
        ++ flattenPlane
          (letterUV (resize frame.uBuf (frame.width / 2) (frame.height / 2)
              ((scaledDims frame.width frame.height nw nh).1 / 2)
              ((scaledDims frame.width frame.height nw nh).2 / 2))
            ((nh - (scaledDims frame.width frame.height nw nh).2) / 2 / 2)
            ((nw - (scaledDims frame.width frame.height nw nh).1) / 2 / 2)
            ((scaledDims frame.width frame.height nw nh).2 / 2)
            ((scaledDims frame.width frame.height nw nh).1 / 2)) (nw / 2) (nh / 2)
        ++ flattenPlane
          (letterUV (resize frame.vBuf (frame.width / 2) (frame.height / 2)
              ((scaledDims frame.width frame.height nw nh).1 / 2)
              ((scaledDims frame.width frame.height nw nh).2 / 2))
            ((nh - (scaledDims frame.width frame.height nw nh).2) / 2 / 2)
            ((nw - (scaledDims frame.width frame.height nw nh).1) / 2 / 2)
            ((scaledDims frame.width frame.height nw nh).2 / 2)
            ((scaledDims frame.width frame.height nw nh).1 / 2)) (nw / 2) (nh / 2) := by
  unfold scale_i420
  rw [if_neg hne]

theorem even_i420_length_arith (nw nh : Nat) (hW : nw % 2 = 0)
    (hH : nh % 2 = 0) :
    nh * nw + (nh / 2) * (nw / 2) + (nh / 2) * (nw / 2) = nw * nh * 3 / 2 := by
  obtain ⟨a, ha⟩ : ∃ a, nw = 2 * a := ⟨nw / 2, by omega⟩
  obtain ⟨b, hb⟩ : ∃ b, nh = 2 * b := ⟨nh / 2, by omega⟩
  subst ha
  subst hb
  rw [Nat.mul_div_cancel_left a (by norm_num : 0 < 2),
    Nat.mul_div_cancel_left b (by norm_num : 0 < 2)]
  have h3 : 2 * a * (2 * b) * 3 = 2 * (a * b * 6) := by ring
  rw [h3, Nat.mul_div_cancel_left _ (by norm_num : 0 < 2)]
  ring

/-- C7.  Frame Scaler: for every planar 4:2:0 input and even target
dimensions, the output byte length is exactly the planar 4:2:0 size
`nw * nh * 3 / 2`; when the source and target aspect ratios agree within the
1e-6 tolerance the output is the direct resize of the three planes with no
letterbox padding; otherwise the scaled image (which fits inside the target
box, with the fitted axis exactly filling its dimension) is centered on a
black canvas — luma letterbox value 0, chroma 128 — with padding on each axis
symmetric to within one pixel, the chroma planes placed at the luma offsets
divided by two. -/
theorem scale_i420_spec (resize : Resizer) (frame : I420Frame) (nw nh : Nat)
    (hW : nw % 2 = 0) (hH : nh % 2 = 0) (hfh : 0 < frame.height)
    (hnh : 0 < nh) :
    (scale_i420 resize frame nw nh).length = nw * nh * 3 / 2
    ∧ (|aspect frame.width frame.height - aspect nw nh| < 1 / 1000000 →
        scale_i420 resize frame nw nh
          = flattenPlane (resize frame.yBuf frame.width frame.height nw nh) nw nh
            ++ flattenPlane (resize frame.uBuf (frame.width / 2)
                (frame.height / 2) (nw / 2) (nh / 2)) (nw / 2) (nh / 2)
            ++ flattenPlane (resize frame.vBuf (frame.width / 2)
                (frame.height / 2) (nw / 2) (nh / 2)) (nw / 2) (nh / 2))
    ∧ (¬ |aspect frame.width frame.height - aspect nw nh| < 1 / 1000000 →
        ∀ sw sh, scaledDims frame.width frame.height nw nh = (sw, sh) →
        (sh ≤ nh ∧ sw ≤ nw)
        ∧ (aspect frame.width frame.height > aspect nw nh → sw = nw)
        ∧ (¬ aspect frame.width frame.height > aspect nw nh → sh = nh)
        ∧ ((nh - sh) - (nh - sh) / 2 ≤ (nh - sh) / 2 + 1
            ∧ (nh - sh) / 2 ≤ (nh - sh) - (nh - sh) / 2
            ∧ (nw - sw) - (nw - sw) / 2 ≤ (nw - sw) / 2 + 1
            ∧ (nw - sw) / 2 ≤ (nw - sw) - (nw - sw) / 2)
        ∧ (∀ r c, r < nh → c < nw →
            (scale_i420 resize frame nw nh)[r * nw + c]?
              = some (letterY (resize frame.yBuf frame.width frame.height sw sh)
                  ((nh - sh) / 2) ((nw - sw) / 2) sh sw r c))
        ∧ (∀ r c, r < nh / 2 → c < nw / 2 →
            (scale_i420 resize frame nw nh)[nh * nw + (r * (nw / 2) + c)]?
              = some (letterUV (resize frame.uBuf (frame.width / 2)
                    (frame.height / 2) (sw / 2) (sh / 2))
                  ((nh - sh) / 2 / 2) ((nw - sw) / 2 / 2) (sh / 2) (sw / 2) r c))
        ∧ (∀ r c, r < nh / 2 → c < nw / 2 →
            (scale_i420 resize frame nw nh)[nh * nw + (nh / 2) * (nw / 2)
                + (r * (nw / 2) + c)]?
              = some (letterUV (resize frame.vBuf (frame.width / 2)
                    (frame.height / 2) (sw / 2) (sh / 2))
                  ((nh - sh) / 2 / 2) ((nw - sw) / 2 / 2) (sh / 2) (sw / 2) r c))
        ∧ (∀ (sy : Nat → Nat → Nat) (r c : Nat),
            ¬ ((nh - sh) / 2 ≤ r ∧ r < (nh - sh) / 2 + sh
                ∧ (nw - sw) / 2 ≤ c ∧ c < (nw - sw) / 2 + sw) →
            letterY sy ((nh - sh) / 2) ((nw - sw) / 2) sh sw r c = 0)
        ∧ (∀ (su : Nat → Nat → Nat) (r c : Nat),
            ¬ ((nh - sh) / 2 / 2 ≤ r ∧ r < (nh - sh) / 2 / 2 + sh / 2
                ∧ (nw - sw) / 2 / 2 ≤ c ∧ c < (nw - sw) / 2 / 2 + sw / 2) →
            letterUV su ((nh - sh) / 2 / 2) ((nw - sw) / 2 / 2) (sh / 2) (sw / 2)
              r c = 128)) := by
  refine ⟨?_, fun heq => scale_i420_eq_direct resize frame nw nh heq, ?_⟩
  · by_cases hasp : |aspect frame.width frame.height - aspect nw nh| < 1 / 1000000
    · rw [scale_i420_eq_direct resize frame nw nh hasp]
      simp only [List.length_append, length_flattenPlane]
      exact even_i420_length_arith nw nh hW hH
    · rw [scale_i420_eq_letterbox resize frame nw nh hasp]
      simp only [List.length_append, length_flattenPlane]
      exact even_i420_length_arith nw nh hW hH
  · intro hne sw sh hdims
    obtain ⟨hle1, hle2, hfitw, hfith⟩ :=
      @scaledDims_le frame.width frame.height nw nh hfh hnh
    rw [hdims] at hle1 hle2 hfitw hfith
    refine ⟨⟨hle1, hle2⟩, hfitw, hfith, ⟨by omega, by omega, by omega, by omega⟩,
      ?_, ?_, ?_, ?_, ?_⟩
    · intro r c hr hc
      rw [scale_i420_eq_letterbox resize frame nw nh hne, hdims]
      have hbound1 : r * nw + c < nh * nw := idx_lt hr hc
      rw [List.getElem?_append_left (by
        rw [List.length_append, length_flattenPlane, length_flattenPlane]
        omega)]
      rw [List.getElem?_append_left (by rw [length_flattenPlane]; exact hbound1)]
      exact getElem?_flattenPlane _ nw nh r c hr hc
    · intro r c hr hc
      rw [scale_i420_eq_letterbox resize frame nw nh hne, hdims]
      have hbound1 : r * (nw / 2) + c < (nh / 2) * (nw / 2) := idx_lt hr hc
      rw [List.getElem?_append_left (by
        rw [List.length_append, length_flattenPlane, length_flattenPlane]
        omega)]
      rw [List.getElem?_append_right (by rw [length_flattenPlane]; omega)]
      rw [length_flattenPlane]
      have hsub : nh * nw + (r * (nw / 2) + c) - nh * nw
          = r * (nw / 2) + c := by omega
      rw [hsub]
      exact getElem?_flattenPlane _ (nw / 2) (nh / 2) r c hr hc
    · intro r c hr hc
      rw [scale_i420_eq_letterbox resize frame nw nh hne, hdims]
      have hbound1 : r * (nw / 2) + c < (nh / 2) * (nw / 2) := idx_lt hr hc
      rw [List.getElem?_append_right (by
        rw [List.length_append, length_flattenPlane, length_flattenPlane]
        omega)]
      rw [List.length_append, length_flattenPlane, length_flattenPlane]
      have hsub : nh * nw + (nh / 2) * (nw / 2) + (r * (nw / 2) + c)
          - (nh * nw + (nh / 2) * (nw / 2)) = r * (nw / 2) + c := by omega
      rw [hsub]
      exact getElem?_flattenPlane _ (nw / 2) (nh / 2) r c hr hc
    · intro sy r c hout
      unfold letterY
      rw [if_neg hout]
    · intro su r c hout
      unfold letterUV
      rw [if_neg hout]

/-- Witness for C7 at a 4×2 source frame scaled to 2×2 (aspect 2 vs 1, the
fit-width case, scaled dims 2×1), with the identity resizer. -/
theorem scale_i420_spec_witness :
    (scale_i420 (fun f _ _ _ _ => f) ⟨4, 2, fun _ _ => 9, fun _ _ => 9, fun _ _ => 9⟩
        2 2).length = 2 * 2 * 3 / 2
    ∧ ((1 : Nat) ≤ 2 ∧ (2 : Nat) ≤ 2)
    ∧ (scale_i420 (fun f _ _ _ _ => f)
        ⟨4, 2, fun _ _ => 9, fun _ _ => 9, fun _ _ => 9⟩ 2 2)[0 * 2 + 0]?
      = some (letterY (fun _ _ => 9) ((2 - 1) / 2) ((2 - 2) / 2) 1 2 0 0) := by
  have hne : ¬ |aspect 4 2 - aspect 2 2| < 1 / 1000000 := by
    unfold aspect
    norm_num
  have hdims : scaledDims 4 2 2 2 = (2, 1) := by
    unfold scaledDims aspect
    rw [if_pos (by norm_num)]
    rw [round_eq]
    norm_num
  have h := scale_i420_spec (fun f _ _ _ _ => f)
    ⟨4, 2, fun _ _ => 9, fun _ _ => 9, fun _ _ => 9⟩ 2 2 rfl rfl
    (by decide) (by decide)
  refine ⟨h.1, (h.2.2 hne 2 1 hdims).1, ?_⟩
  exact (h.2.2 hne 2 1 hdims).2.2.2.2.1 0 0 (by decide) (by decide)

end VideoInputManager

end ZoomBot
